import Mathlib

/-!
Verification of the `uws` WebSocket endpoint (package `uws`, file `uws.go`)
against its natural-language specification.

The Go source is shallowly embedded: pure helpers become Lean functions,
stateful code becomes explicit state passing, Go `int`/`int64` values become
`Int` (no arithmetic here ever overflows 64 bits except where modelled
explicitly), byte slices become `List Nat` with entries below 256, and the
in-place slice mutations of the source become functional updates.
-/

namespace Uws

/-! ### Configuration clamping (`cval`, `Dial` lines 101-113, `Handle` lines 307-318) -/

/-- Embedding of `func cval(value, fallback, min, max int) int` (uws.go:651). -/
def cval (value fallback min max : Int) : Int :=
  let value := if value = 0 then fallback else value
  let value := if value < min then min else value
  let value := if value > max then max else value
  value

/-- One nanosecond count per second, matching Go `time.Second`. -/
def sec : Int := 1000000000

/-- The numeric options of `uws.Config` (uws.go:47), durations in nanoseconds. -/
structure GoConfig where
  ReadSize : Int := 0
  FragmentSize : Int := 0
  MessageSize : Int := 0
  ConnectTimeout : Int := 0
  ProbeTimeout : Int := 0
  InactiveTimeout : Int := 0
  WriteTimeout : Int := 0
  WriteBufferSize : Int := 0
  ReadBufferSize : Int := 0
  deriving DecidableEq, Repr

/-- Embedding of the config-normalisation statements of `Dial` (uws.go:101-113).
The source mutates `config` field by field, so later lines observe earlier
assignments: line 104 reads the caller's `ProbeTimeout` (not `ConnectTimeout`),
line 106 reads the already-clamped `ProbeTimeout`. -/
def dialClamp (c : GoConfig) : GoConfig :=
  let readSize := cval c.ReadSize 4096 4096 262144
  let fragmentSize := cval c.FragmentSize 16384 4096 1048576
  let messageSize := cval c.MessageSize 4194304 4096 67108864
  let connectTimeout := cval c.ProbeTimeout (10 * sec) (1 * sec) (30 * sec)
  let probeTimeout := cval c.ProbeTimeout (15 * sec) (1 * sec) (30 * sec)
  let inactiveTimeout := cval c.InactiveTimeout (3 * probeTimeout) (probeTimeout + sec) (5 * probeTimeout)
  let writeTimeout := cval c.WriteTimeout (10 * sec) (1 * sec) (30 * sec)
  let readBufferSize := if c.ReadBufferSize ≠ 0 then cval c.ReadBufferSize 4096 4096 33554432 else c.ReadBufferSize
  let writeBufferSize := if c.WriteBufferSize ≠ 0 then cval c.WriteBufferSize 4096 4096 33554432 else c.WriteBufferSize
  { ReadSize := readSize, FragmentSize := fragmentSize, MessageSize := messageSize,
    ConnectTimeout := connectTimeout, ProbeTimeout := probeTimeout,
    InactiveTimeout := inactiveTimeout, WriteTimeout := writeTimeout,
    WriteBufferSize := writeBufferSize, ReadBufferSize := readBufferSize }

/-- Embedding of the config-normalisation statements of `Handle` (uws.go:307-318).
`Handle` never touches `ConnectTimeout`, and its `ProbeTimeout` fallback is
`10*time.Second` (uws.go:310). -/
def handleClamp (c : GoConfig) : GoConfig :=
  let readSize := cval c.ReadSize 4096 4096 262144
  let fragmentSize := cval c.FragmentSize 16384 4096 1048576
  let messageSize := cval c.MessageSize 4194304 4096 67108864
  let probeTimeout := cval c.ProbeTimeout (10 * sec) (1 * sec) (30 * sec)
  let inactiveTimeout := cval c.InactiveTimeout (3 * probeTimeout) (probeTimeout + sec) (5 * probeTimeout)
  let writeTimeout := cval c.WriteTimeout (10 * sec) (1 * sec) (30 * sec)
  let readBufferSize := if c.ReadBufferSize ≠ 0 then cval c.ReadBufferSize 4096 4096 33554432 else c.ReadBufferSize
  let writeBufferSize := if c.WriteBufferSize ≠ 0 then cval c.WriteBufferSize 4096 4096 33554432 else c.WriteBufferSize
  { ReadSize := readSize, FragmentSize := fragmentSize, MessageSize := messageSize,
    ConnectTimeout := c.ConnectTimeout, ProbeTimeout := probeTimeout,
    InactiveTimeout := inactiveTimeout, WriteTimeout := writeTimeout,
    WriteBufferSize := writeBufferSize, ReadBufferSize := readBufferSize }

/-! ### Masking primitive (`xor`, uws.go:664-683)

The source XORs whole machine words (`xorsize = 8` bytes on a 64-bit build):
it replicates the 4-byte key into a word-sized byte array, loads it as one
machine word, XORs that word into each aligned 8-byte block of the data, and
finishes the unaligned tail byte by byte with `mask[(index-offset)%4]`.
A machine word stored in memory is modelled as the little-endian base-256
composition of its bytes; XOR of two such words acts digit-wise, which the
bridge lemmas below prove rather than assume. -/

/-- Embedding of `const xorsize = int(unsafe.Sizeof(uintptr(0)))` on a 64-bit
platform (uws.go:664). -/
def xorsize : Nat := 8

/-- The word-sized key byte array built at uws.go:671-673:
`value[index] = mask[index%4]` for `index` below `xorsize`. -/
def maskWordBytes (mask : List Nat) : List Nat :=
  (List.range xorsize).map fun index => mask.getD (index % 4) 0

/-- Little-endian composition of a byte list into the machine word obtained by
loading those bytes from memory (uws.go:674). -/
def wordOfBytes (l : List Nat) : Nat :=
  l.foldr (fun b acc => b + 256 * acc) 0

/-- Little-endian decomposition of a machine word back into `n` memory bytes
(the store half of the in-place `^=` at uws.go:677). -/
def bytesOfWord : Nat → Nat → List Nat
  | _, 0 => []
  | w, n + 1 => (w % 256) :: bytesOfWord (w / 256) n

/-- The byte-wise tail loop of `xor` (uws.go:680-682): starting from block
offset, each byte is XORed with `mask[(index-offset)%4]`, i.e. with the key
byte selected by the index counted from the start of the tail. -/
def xorTailLoop (mask : List Nat) : Nat → List Nat → List Nat
  | _, [] => []
  | i, b :: bs => (b ^^^ mask.getD (i % 4) 0) :: xorTailLoop mask (i + 1) bs

/-- The aligned-block loop of `xor` (uws.go:676-678): XOR the replicated key
word into `n` consecutive 8-byte blocks, then run the tail loop on the rest. -/
def xorBlocks (mask : List Nat) (xorer : Nat) : Nat → List Nat → List Nat
  | 0, d => xorTailLoop mask 0 d
  | n + 1, d =>
    bytesOfWord (wordOfBytes (d.take xorsize) ^^^ xorer) xorsize ++
      xorBlocks mask xorer n (d.drop xorsize)

/-- Embedding of `func xor(mask []byte, data []byte)` (uws.go:666): when at
least one whole word of data is present, `offset = (length/xorsize)*xorsize`
blocks are word-XORed and the tail is processed byte-wise; otherwise
`offset = 0` and the whole span is processed byte-wise. -/
def uwsXor (mask data : List Nat) : List Nat :=
  if xorsize ≤ data.length then
    xorBlocks mask (wordOfBytes (maskWordBytes mask)) (data.length / xorsize) data
  else
    xorTailLoop mask 0 data

/-- Byte-wise reference masking from the spec: `d[i] ^= m[i mod 4]`, carrying
the running absolute index `i`. -/
def refMaskFrom (mask : List Nat) : Nat → List Nat → List Nat
  | _, [] => []
  | i, b :: bs => (b ^^^ mask.getD (i % 4) 0) :: refMaskFrom mask (i + 1) bs

/-- Byte-wise reference masking from the spec, indices counted from zero. -/
def refMask (mask data : List Nat) : List Nat :=
  refMaskFrom mask 0 data

theorem xorTailLoop_eq_refMaskFrom (mask : List Nat) :
    ∀ i d, xorTailLoop mask i d = refMaskFrom mask i d := by
  intro i d
  induction d generalizing i with
  | nil => rfl
  | cons b bs ih => simp [xorTailLoop, refMaskFrom, ih]

theorem refMaskFrom_congr_mod (mask : List Nat) :
    ∀ d i j, i % 4 = j % 4 → refMaskFrom mask i d = refMaskFrom mask j d := by
  intro d
  induction d with
  | nil => intro i j _; rfl
  | cons b bs ih =>
    intro i j h
    simp only [refMaskFrom, h]
    exact congrArg _ (ih (i + 1) (j + 1) (by omega))

theorem refMaskFrom_append (mask : List Nat) :
    ∀ a b i, refMaskFrom mask i (a ++ b) =
      refMaskFrom mask i a ++ refMaskFrom mask (i + a.length) b := by
  intro a
  induction a with
  | nil => intro b i; simp [refMaskFrom]
  | cons x xs ih =>
    intro b i
    have h : i + 1 + xs.length = i + (xs.length + 1) := by omega
    simp [List.cons_append, refMaskFrom, ih, List.length_cons, h]

theorem refMaskFrom_length (mask : List Nat) :
    ∀ d i, (refMaskFrom mask i d).length = d.length := by
  intro d
  induction d with
  | nil => intro i; rfl
  | cons b bs ih => intro i; simp [refMaskFrom, ih]

theorem refMaskFrom_getD (mask : List Nat) :
    ∀ d i j, j < d.length →
      (refMaskFrom mask i d).getD j 0 = d.getD j 0 ^^^ mask.getD ((i + j) % 4) 0 := by
  intro d
  induction d with
  | nil => intro i j h; simp at h
  | cons b bs ih =>
    intro i j h
    cases j with
    | zero => simp [refMaskFrom]
    | succ j =>
      simp only [refMaskFrom, List.getD_cons_succ]
      rw [ih (i + 1) j (by simpa using h)]
      refine congrArg _ (congrArg (fun k => mask.getD k 0) (by omega))

theorem getD_lt_256 {l : List Nat} (hl : ∀ b ∈ l, b < 256) (i : Nat) :
    l.getD i 0 < 256 := by
  by_cases h : i < l.length
  · rw [List.getD_eq_getElem l 0 h]
    exact hl _ (l.getElem_mem h)
  · rw [List.getD_eq_default l 0 (by omega)]
    omega

/-- XOR of two little-endian-composed words decomposes digit-wise in the
lowest byte. -/
theorem word_xor_step (x y X Y : Nat) (hx : x < 256) (hy : y < 256) :
    (x + 256 * X) ^^^ (y + 256 * Y) = (x ^^^ y) + 256 * (X ^^^ Y) := by
  have h8 : (256 : Nat) = 2 ^ 8 := by norm_num
  have hx8 : x < 2 ^ 8 := by omega
  have hy8 : y < 2 ^ 8 := by omega
  have hxy8 : x ^^^ y < 2 ^ 8 := Nat.xor_lt_two_pow hx8 hy8
  apply Nat.eq_of_testBit_eq
  intro j
  rw [show x + 256 * X = 2 ^ 8 * X + x by omega,
      show y + 256 * Y = 2 ^ 8 * Y + y by omega,
      show (x ^^^ y) + 256 * (X ^^^ Y) = 2 ^ 8 * (X ^^^ Y) + (x ^^^ y) by omega]
  rw [Nat.testBit_xor, Nat.testBit_mul_pow_two_add X hx8 j,
      Nat.testBit_mul_pow_two_add Y hy8 j, Nat.testBit_mul_pow_two_add (X ^^^ Y) hxy8 j]
  by_cases h : j < 8 <;> simp [h, Nat.testBit_xor]

/-- XOR of the words loaded from two equal-length byte lists, stored back as
bytes, equals the byte-wise XOR of the lists. -/
theorem bytesOfWord_xor :
    ∀ (a b : List Nat), a.length = b.length →
      (∀ x ∈ a, x < 256) → (∀ x ∈ b, x < 256) →
      bytesOfWord (wordOfBytes a ^^^ wordOfBytes b) a.length =
        List.zipWith (fun u v => u ^^^ v) a b := by
  intro a
  induction a with
  | nil =>
    intro b hlen _ _
    have : b = [] := List.eq_nil_of_length_eq_zero hlen.symm
    subst this
    rfl
  | cons x xs ih =>
    intro b hlen ha hb
    cases b with
    | nil => simp at hlen
    | cons y ys =>
      have hx : x < 256 := ha x (by simp)
      have hy : y < 256 := hb y (by simp)
      have hxy : x ^^^ y < 256 :=
        lt_of_lt_of_le
          (Nat.xor_lt_two_pow (n := 8) (lt_of_lt_of_le hx (by norm_num))
            (lt_of_lt_of_le hy (by norm_num)))
          (by norm_num)
      have hlen2 : xs.length = ys.length := by simpa using hlen
      rw [show (x :: xs).length = xs.length + 1 from rfl,
          show wordOfBytes (x :: xs) = x + 256 * wordOfBytes xs from rfl,
          show wordOfBytes (y :: ys) = y + 256 * wordOfBytes ys from rfl,
          word_xor_step _ _ _ _ hx hy]
      simp only [bytesOfWord, List.zipWith_cons_cons]
      rw [Nat.add_mul_mod_self_left, Nat.mod_eq_of_lt hxy,
          Nat.add_mul_div_left _ _ (by omega : (0:Nat) < 256),
          Nat.div_eq_of_lt hxy, Nat.zero_add]
      exact congrArg _ (ih ys hlen2 (fun z hz => ha z (by simp [hz]))
        (fun z hz => hb z (by simp [hz])))

theorem maskWordBytes_length (mask : List Nat) : (maskWordBytes mask).length = 8 := by
  simp [maskWordBytes, xorsize]

theorem maskWordBytes_lt (mask : List Nat) (hm : ∀ b ∈ mask, b < 256) :
    ∀ b ∈ maskWordBytes mask, b < 256 := by
  intro b hb
  simp only [maskWordBytes, List.mem_map] at hb
  obtain ⟨i, _, rfl⟩ := hb
  exact getD_lt_256 hm _

theorem zipWith_maskWord (m : List Nat) (blk : List Nat) (h : blk.length = 8) :
    List.zipWith (fun u v => u ^^^ v) blk (maskWordBytes m) = refMaskFrom m 0 blk := by
  cases blk with
  | nil => simp at h
  | cons b0 t0 =>
  cases t0 with
  | nil => simp at h
  | cons b1 t1 =>
  cases t1 with
  | nil => simp at h
  | cons b2 t2 =>
  cases t2 with
  | nil => simp at h
  | cons b3 t3 =>
  cases t3 with
  | nil => simp at h
  | cons b4 t4 =>
  cases t4 with
  | nil => simp at h
  | cons b5 t5 =>
  cases t5 with
  | nil => simp at h
  | cons b6 t6 =>
  cases t6 with
  | nil => simp at h
  | cons b7 t7 =>
  cases t7 with
  | cons b8 t8 => simp at h
  | nil => rfl

theorem xorBlocks_eq_refMaskFrom (mask : List Nat) (hm : ∀ b ∈ mask, b < 256) :
    ∀ (n : Nat) (d : List Nat), (∀ b ∈ d, b < 256) → 8 * n ≤ d.length →
      xorBlocks mask (wordOfBytes (maskWordBytes mask)) n d = refMaskFrom mask 0 d := by
  intro n
  induction n with
  | zero => intro d _ _; exact xorTailLoop_eq_refMaskFrom mask 0 d
  | succ n ih =>
    intro d hd hlen
    have h8 : 8 ≤ d.length := by omega
    have htake : (d.take 8).length = 8 := by simp [List.length_take]; omega
    have htakeb : ∀ b ∈ d.take 8, b < 256 := fun b hb => hd b (List.mem_of_mem_take hb)
    have hdropb : ∀ b ∈ d.drop 8, b < 256 := fun b hb => hd b (List.mem_of_mem_drop hb)
    have hbridge :
        bytesOfWord (wordOfBytes (d.take 8) ^^^ wordOfBytes (maskWordBytes mask)) 8 =
          List.zipWith (fun u v => u ^^^ v) (d.take 8) (maskWordBytes mask) := by
      have := bytesOfWord_xor (d.take 8) (maskWordBytes mask)
        (by rw [htake, maskWordBytes_length]) htakeb (maskWordBytes_lt mask hm)
      rwa [htake] at this
    show bytesOfWord (wordOfBytes (d.take xorsize) ^^^ wordOfBytes (maskWordBytes mask)) xorsize ++
        xorBlocks mask (wordOfBytes (maskWordBytes mask)) n (d.drop xorsize) = _
    rw [show xorsize = 8 from rfl, hbridge, zipWith_maskWord mask _ htake,
        ih (d.drop 8) hdropb (by simp [List.length_drop]; omega)]
    have happend := refMaskFrom_append mask (d.take 8) (d.drop 8) 0
    rw [List.take_append_drop] at happend
    rw [happend, htake]
    exact congrArg _ (refMaskFrom_congr_mod mask _ 0 (0 + 8) (by omega))

theorem uwsXor_eq_refMask (mask data : List Nat) (hm : ∀ b ∈ mask, b < 256)
    (hd : ∀ b ∈ data, b < 256) : uwsXor mask data = refMask mask data := by
  unfold uwsXor refMask
  by_cases h : xorsize ≤ data.length
  · simp only [h, if_true]
    refine xorBlocks_eq_refMaskFrom mask hm (data.length / xorsize) data hd ?_
    have := Nat.div_mul_le_self data.length 8
    show 8 * (data.length / 8) ≤ data.length
    omega
  · simp only [h, if_false]
    exact xorTailLoop_eq_refMaskFrom mask 0 data

theorem refMaskFrom_involution (mask : List Nat) :
    ∀ d i, refMaskFrom mask i (refMaskFrom mask i d) = d := by
  intro d
  induction d with
  | nil => intro i; rfl
  | cons b bs ih => intro i; simp [refMaskFrom, ih, Nat.xor_cancel_right]

theorem refMaskFrom_lt_256 (mask : List Nat) (hm : ∀ b ∈ mask, b < 256) :
    ∀ d i, (∀ b ∈ d, b < 256) → ∀ b ∈ refMaskFrom mask i d, b < 256 := by
  intro d
  induction d with
  | nil => intro i _ b hb; simp [refMaskFrom] at hb
  | cons x xs ih =>
    intro i hd b hb
    simp only [refMaskFrom, List.mem_cons] at hb
    rcases hb with hb | hb
    · subst hb
      exact lt_of_lt_of_le
        (Nat.xor_lt_two_pow (n := 8)
          (lt_of_lt_of_le (hd x (by simp)) (by norm_num))
          (lt_of_lt_of_le (getD_lt_256 hm _) (by norm_num)))
        (by norm_num)
    · exact ih (i + 1) (fun z hz => hd z (by simp [hz])) b hb

/-- The masking involution on the source `xor`: two applications with the same
key restore the plaintext. -/
theorem uwsXor_involution (mask data : List Nat) (hm : ∀ b ∈ mask, b < 256)
    (hd : ∀ b ∈ data, b < 256) : uwsXor mask (uwsXor mask data) = data := by
  rw [uwsXor_eq_refMask mask data hm hd,
      uwsXor_eq_refMask mask (refMask mask data) hm
        (refMaskFrom_lt_256 mask hm data 0 hd)]
  exact refMaskFrom_involution mask data 0

theorem uwsXor_length (mask data : List Nat) : (uwsXor mask data).length = data.length := by
  have htail : ∀ d i, (xorTailLoop mask i d).length = d.length := by
    intro d
    induction d with
    | nil => intro i; rfl
    | cons b bs ih => intro i; simp [xorTailLoop, ih]
  have hbw : ∀ w n, (bytesOfWord w n).length = n := by
    intro w n
    induction n generalizing w with
    | zero => rfl
    | succ n ih => simp [bytesOfWord, ih]
  have hblocks : ∀ n d, 8 * n ≤ d.length →
      (xorBlocks mask (wordOfBytes (maskWordBytes mask)) n d).length = d.length := by
    intro n
    induction n with
    | zero => intro d _; exact htail d 0
    | succ n ih =>
      intro d hlen
      show (bytesOfWord _ xorsize ++ xorBlocks _ _ n (d.drop xorsize)).length = d.length
      rw [List.length_append, hbw, ih (d.drop xorsize) (by simp [List.length_drop, xorsize]; omega)]
      simp [List.length_drop, xorsize]
      omega
  unfold uwsXor
  by_cases h : xorsize ≤ data.length
  · simp only [h, if_true]
    refine hblocks _ data ?_
    have := Nat.div_mul_le_self data.length 8
    show 8 * (data.length / 8) ≤ data.length
    omega
  · simp only [h, if_false]
    exact htail data 0

/-! ### Send path (`Write`, uws.go:351-399)

`Write(mode, data)` fragments the payload under the dispatch mutex.  The
embedding operates on the byte list `data`; the in-place slice mutations of
the masking step become functional segment updates.  The fresh random mask of
each fragment (`rmask()`, uws.go:645) and the success of each stream write
become the parameters `masks` and `sendOk`. -/

/-- Big-endian 16-bit length extension (`binary.BigEndian.PutUint16`). -/
def be16 (n : Nat) : List Nat := [n / 256 % 256, n % 256]

/-- Big-endian 64-bit length extension (`binary.BigEndian.PutUint64`). -/
def be64 (n : Nat) : List Nat :=
  [n / 256 ^ 7 % 256, n / 256 ^ 6 % 256, n / 256 ^ 5 % 256, n / 256 ^ 4 % 256,
   n / 256 ^ 3 % 256, n / 256 ^ 2 % 256, n / 256 % 256, n % 256]

/-- The slice `d[off : off+size]` of a byte list. -/
def seg (d : List Nat) (off size : Nat) : List Nat := (d.drop off).take size

/-- In-place mutation of the slice `d[off : off+size]` by `f`, as a functional
update of the whole list. -/
def updateSeg (d : List Nat) (off size : Nat) (f : List Nat → List Nat) : List Nat :=
  d.take off ++ f (seg d off size) ++ d.drop (off + size)

/-- One outbound frame as `Write` assembles it into `net.Buffers`
(uws.go:370-388): first header byte `fin | mode`, second header byte
(length code, plus the MASK bit for a client), the optional big-endian length
extension, the 4-byte key for a client, and the payload slice exactly as
handed to `send` (masked in place for a client). -/
structure WFrame where
  b0 : Nat
  b1 : Nat
  ext : List Nat
  key : List Nat
  payload : List Nat
  deriving Repr, DecidableEq

instance : Inhabited WFrame := ⟨⟨0, 0, [], [], []⟩⟩

/-- `offset` of fragment `frame` (uws.go:363): `(frame-1)*FragmentSize`. -/
def frameOffset (fs frame : Nat) : Nat := (frame - 1) * fs

/-- `size` of fragment `frame` (uws.go:363-366): `FragmentSize`, or the
remainder `length-offset` on the final fragment. -/
def frameSize (fs len frames frame : Nat) : Nat :=
  if frame = frames then len - frameOffset fs frame else fs

/-- `fin` of fragment `frame` (uws.go:363-366): FIN (0x80) only on the last. -/
def frameFin (frames frame : Nat) : Nat := if frame = frames then 128 else 0

/-- `mode` carried by fragment `frame` (uws.go:367-369): zeroed to the
continuation opcode after the first fragment. -/
def frameMode (mode frame : Nat) : Nat := if 1 < frame then 0 else mode

/-- The 7-bit length code of the second header byte (uws.go:371-381). -/
def lenCode (size : Nat) : Nat :=
  if size < 126 then size else if size < 65536 then 126 else 127

/-- The big-endian length extension bytes (uws.go:371-381). -/
def lenExt (size : Nat) : List Nat :=
  if size < 126 then [] else if size < 65536 then be16 size else be64 size

/-- The content of the caller's slice while fragment `frame` is on the wire:
masked in place for a client (uws.go:382-387), untouched for a server. -/
def sendData (client : Bool) (fs len frames : Nat) (masks : Nat → List Nat)
    (frame : Nat) (data : List Nat) : List Nat :=
  if client then
    updateSeg data (frameOffset fs frame) (frameSize fs len frames frame)
      (uwsXor (masks frame))
  else data

/-- The fragment loop of `Write` (uws.go:362-396), one call per `frame` from 1
to `frames`.  Returns the emitted frames, the final content of the caller's
`data` slice, and whether every `send` succeeded.  For a client the segment is
masked in place before the send and unmasked right after it, on the success
and the error path alike; on a send error the loop returns early. -/
def writeLoop (client : Bool) (fs len frames : Nat) (masks : Nat → List Nat)
    (sendOk : Nat → Bool) (frame mode : Nat) (data : List Nat) :
    List WFrame × List Nat × Bool :=
  if h : frame ≤ frames then
    let offset := frameOffset fs frame
    let size := frameSize fs len frames frame
    let mode1 := frameMode mode frame
    let key := if client then masks frame else []
    let data1 := sendData client fs len frames masks frame data
    let b1 := if client then lenCode size ||| 128 else lenCode size
    let fr : WFrame := ⟨frameFin frames frame ||| mode1, b1, lenExt size, key,
      seg data1 offset size⟩
    let data2 := sendData client fs len frames masks frame data1
    if sendOk frame then
      let r := writeLoop client fs len frames masks sendOk (frame + 1) mode1 data2
      (fr :: r.1, r.2.1, r.2.2)
    else ([fr], data2, false)
  else ([], data, true)
termination_by frames + 1 - frame
decreasing_by omega

/-- Embedding of `func (s *Socket) Write(mode byte, data []byte)`
(uws.go:351): a no-op unless `mode` is TEXT or BLOB and the payload is
non-empty; otherwise `frames = len/fs`, incremented when `len%fs != 0`, and
the fragment loop runs from frame 1. -/
def goWrite (client : Bool) (fs mode : Nat) (data : List Nat)
    (masks : Nat → List Nat) (sendOk : Nat → Bool) : List WFrame × List Nat × Bool :=
  let length := data.length
  if (mode = 1 ∨ mode = 2) ∧ 0 < length then
    let frames := length / fs + (if length % fs ≠ 0 then 1 else 0)
    writeLoop client fs length frames masks sendOk 1 mode data
  else ([], data, true)

theorem seg_length (d : List Nat) (off size : Nat) (h : off + size ≤ d.length) :
    (seg d off size).length = size := by
  simp only [seg, List.length_take, List.length_drop]
  omega

theorem updateSeg_length (d : List Nat) (off size : Nat) (f : List Nat → List Nat)
    (hf : ∀ s, (f s).length = s.length) (h : off + size ≤ d.length) :
    (updateSeg d off size f).length = d.length := by
  simp only [updateSeg, List.length_append, List.length_take, List.length_drop, hf, seg]
  omega

theorem seg_updateSeg (d : List Nat) (off size : Nat) (f : List Nat → List Nat)
    (hf : ∀ s, (f s).length = s.length) (h : off + size ≤ d.length) :
    seg (updateSeg d off size f) off size = f (seg d off size) := by
  have hpre : (d.take off).length = off := by
    simp only [List.length_take]
    omega
  have hfl : (f ((d.drop off).take size)).length = size := by
    rw [hf]
    simp only [List.length_take, List.length_drop]
    omega
  simp only [updateSeg, seg]
  rw [List.append_assoc, List.drop_left' hpre, List.take_left' hfl]

theorem updateSeg_take (d : List Nat) (off size : Nat) (f : List Nat → List Nat)
    (h : off ≤ d.length) : (updateSeg d off size f).take off = d.take off := by
  have hpre : (d.take off).length = off := by
    simp only [List.length_take]
    omega
  simp only [updateSeg]
  rw [List.append_assoc]
  exact List.take_left' hpre

theorem updateSeg_drop (d : List Nat) (off size : Nat) (f : List Nat → List Nat)
    (hf : ∀ s, (f s).length = s.length) (h : off + size ≤ d.length) :
    (updateSeg d off size f).drop (off + size) = d.drop (off + size) := by
  have hpre : (d.take off).length = off := by
    simp only [List.length_take]
    omega
  have hfl : (f (seg d off size)).length = size := by
    rw [hf]
    exact seg_length d off size h
  simp only [updateSeg]
  exact List.drop_left' (by rw [List.length_append, hpre, hfl])

theorem updateSeg_restore (key : List Nat) (d : List Nat) (off size : Nat)
    (hm : ∀ b ∈ key, b < 256) (hd : ∀ b ∈ d, b < 256) (h : off + size ≤ d.length) :
    updateSeg (updateSeg d off size (uwsXor key)) off size (uwsXor key) = d := by
  have hs : ∀ b ∈ seg d off size, b < 256 := fun b hb =>
    hd b (List.mem_of_mem_drop (List.mem_of_mem_take hb))
  have hflen : ∀ s, (uwsXor key s).length = s.length := fun s => uwsXor_length key s
  rw [show updateSeg (updateSeg d off size (uwsXor key)) off size (uwsXor key) =
        (updateSeg d off size (uwsXor key)).take off ++
          uwsXor key (seg (updateSeg d off size (uwsXor key)) off size) ++
            (updateSeg d off size (uwsXor key)).drop (off + size) from rfl,
      seg_updateSeg d off size _ hflen h,
      uwsXor_involution key (seg d off size) hm hs,
      updateSeg_take d off size _ (by omega), updateSeg_drop d off size _ hflen h]
  show d.take off ++ (d.drop off).take size ++ d.drop (off + size) = d
  rw [List.append_assoc, ← List.drop_drop,
      List.take_append_drop, List.take_append_drop]

theorem framesBounds (fs len : Nat) (hfs : 0 < fs) (hlen : 0 < len) :
    1 ≤ len / fs + (if len % fs ≠ 0 then 1 else 0) ∧
    ((len / fs + (if len % fs ≠ 0 then 1 else 0)) - 1) * fs < len ∧
    len ≤ (len / fs + (if len % fs ≠ 0 then 1 else 0)) * fs := by
  have hdm := Nat.div_add_mod len fs
  have hr : len % fs < fs := Nat.mod_lt _ hfs
  by_cases h : len % fs = 0
  · rw [if_neg (by omega)]
    have hq1 : 1 ≤ len / fs := by
      by_contra hq
      have h0 : len / fs = 0 := Nat.eq_zero_of_not_pos hq
      rw [h0, Nat.mul_zero, Nat.zero_add] at hdm
      omega
    rw [Nat.add_zero]
    refine ⟨hq1, ?_, ?_⟩
    · have e2 : (len / fs - 1) * fs + fs = len / fs * fs := by
        have e3 : len / fs = (len / fs - 1) + 1 := by omega
        calc (len / fs - 1) * fs + fs = ((len / fs - 1) + 1) * fs := by rw [Nat.succ_mul]
          _ = len / fs * fs := by rw [← e3]
      have e4 : len / fs * fs = fs * (len / fs) := Nat.mul_comm _ _
      omega
    · have e4 : len / fs * fs = fs * (len / fs) := Nat.mul_comm _ _
      omega
  · rw [if_pos (by omega)]
    refine ⟨Nat.le_add_left 1 (len / fs), ?_, ?_⟩
    · have e2 : (len / fs + 1 - 1) * fs = len / fs * fs := by simp
      have e4 : len / fs * fs = fs * (len / fs) := Nat.mul_comm _ _
      omega
    · have e3 : (len / fs + 1) * fs = len / fs * fs + fs := Nat.succ_mul _ _
      have e4 : len / fs * fs = fs * (len / fs) := Nat.mul_comm _ _
      omega

theorem ceil_frames (fs len : Nat) (hfs : 0 < fs) :
    len / fs + (if len % fs ≠ 0 then 1 else 0) = (len + fs - 1) / fs := by
  have hdm := Nat.div_add_mod len fs
  have hr : len % fs < fs := Nat.mod_lt _ hfs
  by_cases h : len % fs = 0
  · rw [if_neg (by omega), Nat.add_zero]
    have e : len + fs - 1 = fs * (len / fs) + (fs - 1) := by omega
    rw [e, Nat.mul_add_div hfs,
        Nat.div_eq_of_lt (show fs - 1 < fs by omega), Nat.add_zero]
  · rw [if_pos (by omega)]
    have e0 : fs * (len / fs + 1) = fs * (len / fs) + fs := by ring
    have e : len + fs - 1 = fs * (len / fs + 1) + (len % fs - 1) := by omega
    rw [e, Nat.mul_add_div hfs,
        Nat.div_eq_of_lt (show len % fs - 1 < fs by omega), Nat.add_zero]

/-- Per-frame offset and size arithmetic of the fragment loop: the slice
`data[offset : offset+size]` of frame `frame` never overruns the payload. -/
theorem frameFits (fs len frames frame : Nat) (_hfs : 0 < fs)
    (hlow : (frames - 1) * fs < len) (h1 : 1 ≤ frame) (h2 : frame ≤ frames) :
    frameOffset fs frame + frameSize fs len frames frame ≤ len := by
  unfold frameSize frameOffset
  by_cases hl : frame = frames
  · subst hl
    rw [if_pos rfl]
    omega
  · rw [if_neg hl]
    have e : (frame - 1) * fs + fs = frame * fs := by
      have e3 : frame = (frame - 1) + 1 := by omega
      calc (frame - 1) * fs + fs = ((frame - 1) + 1) * fs := by rw [Nat.succ_mul]
        _ = frame * fs := by rw [← e3]
    have hle : frame * fs ≤ (frames - 1) * fs :=
      Nat.mul_le_mul_right fs (by omega)
    omega

/-- `sendData` never changes the length of the caller's slice. -/
theorem sendData_length (client : Bool) (fs len frames : Nat) (masks : Nat → List Nat)
    (frame : Nat) (data : List Nat) (hdl : data.length = len)
    (hfit : frameOffset fs frame + frameSize fs len frames frame ≤ len) :
    (sendData client fs len frames masks frame data).length = len := by
  unfold sendData
  by_cases hc : client
  · rw [if_pos hc,
        updateSeg_length _ _ _ _ (fun s => uwsXor_length (masks frame) s)
          (by rw [hdl]; exact hfit)]
    exact hdl
  · rw [if_neg hc]
    exact hdl

/-- Masking a fragment in place and masking it again restores the caller's
slice (the send path relies on the masking involution). -/
theorem sendData_restore (fs len frames : Nat) (masks : Nat → List Nat) (frame : Nat)
    (data : List Nat) (hm : ∀ b ∈ masks frame, b < 256) (hd : ∀ b ∈ data, b < 256)
    (hdl : data.length = len)
    (hfit : frameOffset fs frame + frameSize fs len frames frame ≤ len) :
    sendData true fs len frames masks frame (sendData true fs len frames masks frame data)
      = data := by
  unfold sendData
  rw [if_pos rfl, if_pos rfl]
  exact updateSeg_restore (masks frame) data _ _ hm hd (by rw [hdl]; exact hfit)

/-- Running the fragment loop of `Write` as a client leaves the caller's data
list unchanged, whether or not any send fails: each fragment is unmasked right
after its send, before the loop advances or returns. -/
theorem writeLoop_restore (fs len frames : Nat) (masks : Nat → List Nat)
    (sendOk : Nat → Bool) (hfs : 0 < fs) (hm : ∀ k, ∀ b ∈ masks k, b < 256)
    (hlow : (frames - 1) * fs < len) :
    ∀ (n frame mode : Nat) (data : List Nat), frames + 1 - frame ≤ n → 1 ≤ frame →
      data.length = len → (∀ b ∈ data, b < 256) →
      (writeLoop true fs len frames masks sendOk frame mode data).2.1 = data := by
  intro n
  induction n with
  | zero =>
    intro frame mode data hn h1 hdl _
    rw [writeLoop, dif_neg (by omega)]
  | succ n ih =>
    intro frame mode data hn h1 hdl hdb
    by_cases hguard : frame ≤ frames
    · rw [writeLoop, dif_pos hguard]
      have hfit := frameFits fs len frames frame hfs hlow h1 hguard
      have hrest := sendData_restore fs len frames masks frame data (hm frame) hdb hdl hfit
      cases hsd : sendOk frame with
      | false => simpa using hrest
      | true =>
        simp only [hsd, if_true]
        rw [hrest]
        exact ih (frame + 1) _ data (by omega) (by omega) hdl hdb
    · rw [writeLoop, dif_neg hguard]

theorem writeLoop_stop (client : Bool) (fs len frames : Nat) (masks : Nat → List Nat)
    (sendOk : Nat → Bool) (frame mode : Nat) (data : List Nat) (h : ¬frame ≤ frames) :
    writeLoop client fs len frames masks sendOk frame mode data = ([], data, true) := by
  rw [writeLoop, dif_neg h]

/-- Structural contents of the fragment loop from any start index: one frame
per remaining index, FIN only on the final fragment, the original opcode only
on fragment 1, payload `fs` bytes except the final remainder. -/
theorem writeLoop_struct (client : Bool) (fs len frames : Nat) (masks : Nat → List Nat)
    (sendOk : Nat → Bool) (hfs : 0 < fs) (hsend : ∀ k, sendOk k = true)
    (hlow : (frames - 1) * fs < len) :
    ∀ (n frame mode : Nat) (data : List Nat), frames + 1 - frame ≤ n → 1 ≤ frame →
      frame ≤ frames → data.length = len →
      ((writeLoop client fs len frames masks sendOk frame mode data).1.length
          = frames + 1 - frame) ∧
      (∀ j, j < frames + 1 - frame →
        ((writeLoop client fs len frames masks sendOk frame mode data).1.getD j default).b0
            = (if frame + j = frames then 128 else 0) |||
              (if frame + j = 1 then mode else 0) ∧
        ((writeLoop client fs len frames masks sendOk frame mode data).1.getD j
              default).payload.length
            = if frame + j = frames then len - (frames - 1) * fs else fs) := by
  intro n
  induction n with
  | zero => intro frame mode data hn h1 h2 _; omega
  | succ n ih =>
    intro frame mode data hn h1 h2 hdl
    have hfit := frameFits fs len frames frame hfs hlow h1 h2
    have hsl : (sendData client fs len frames masks frame data).length = len :=
      sendData_length client fs len frames masks frame data hdl hfit
    have hsegl : (seg (sendData client fs len frames masks frame data)
        (frameOffset fs frame) (frameSize fs len frames frame)).length
        = frameSize fs len frames frame :=
      seg_length _ _ _ (by rw [hsl]; exact hfit)
    rw [writeLoop, dif_pos h2]
    simp only [hsend frame, if_true]
    by_cases hl : frame = frames
    · rw [writeLoop_stop client fs len frames masks sendOk (frame + 1) _ _ (by omega)]
      subst hl
      refine ⟨by simp only [List.length_cons, List.length_nil]; omega, ?_⟩
      intro j hj
      have hj0 : j = 0 := by omega
      subst hj0
      constructor
      · show frameFin frame frame ||| frameMode mode frame
            = (if frame + 0 = frame then 128 else 0) ||| (if frame + 0 = 1 then mode else 0)
        unfold frameFin frameMode
        rw [Nat.add_zero, if_pos rfl]
        congr 1
        by_cases hf1 : frame = 1
        · rw [if_neg (by omega), if_pos hf1]
        · rw [if_pos (by omega), if_neg hf1]
      · show (seg (sendData client fs len frame masks frame data)
            (frameOffset fs frame) (frameSize fs len frame frame)).length
            = if frame + 0 = frame then len - (frame - 1) * fs else fs
        rw [hsegl, Nat.add_zero, if_pos rfl]
        unfold frameSize frameOffset
        rw [if_pos rfl]
    · have hsl2 : (sendData client fs len frames masks frame
          (sendData client fs len frames masks frame data)).length = len :=
        sendData_length client fs len frames masks frame _ hsl hfit
      have hrec := ih (frame + 1) (frameMode mode frame)
        (sendData client fs len frames masks frame
          (sendData client fs len frames masks frame data))
        (by omega) (by omega) (by omega) hsl2
      constructor
      · simp only [List.length_cons]
        rw [hrec.1]
        omega
      · intro j hj
        cases j with
        | zero =>
          simp only [List.getD_cons_zero]
          constructor
          · show frameFin frames frame ||| frameMode mode frame
                = (if frame + 0 = frames then 128 else 0) |||
                  (if frame + 0 = 1 then mode else 0)
            unfold frameFin frameMode
            rw [Nat.add_zero, if_neg hl]
            congr 1
            by_cases hf1 : frame = 1
            · rw [if_neg (by omega), if_pos hf1]
            · rw [if_pos (by omega), if_neg hf1]
          · show (seg (sendData client fs len frames masks frame data)
                (frameOffset fs frame) (frameSize fs len frames frame)).length
                = if frame + 0 = frames then len - (frames - 1) * fs else fs
            rw [hsegl, Nat.add_zero, if_neg hl]
            unfold frameSize
            rw [if_neg hl]
        | succ j =>
          simp only [List.getD_cons_succ]
          have hj2 : j < frames + 1 - (frame + 1) := by omega
          have hp := hrec.2 j hj2
          have e1 : frame + 1 + j = frame + (j + 1) := by omega
          rw [e1] at hp
          have e2 : (if frame + (j + 1) = 1 then frameMode mode frame else 0)
              = (if frame + (j + 1) = 1 then mode else 0) := by
            rw [if_neg (by omega), if_neg (by omega)]
          rw [e2] at hp
          exact hp

end Uws

/-- Claim C3. `Write(opcode, data)` (uws.go:351) with an opcode other than
TEXT (1) or BLOB (2), or with empty data, is a no-op: no frame is emitted and
the data is unchanged.  Otherwise, with every send succeeding, exactly
`ceil(len/FragmentSize)` frames are produced; frame 1 carries the original
opcode and later frames carry opcode 0, FIN (0x80) is set only on the last
frame, and every payload is `FragmentSize` bytes except the last, which
carries the remainder. -/
theorem c3_write_fragmentation (client : Bool) (masks : Nat → List Nat)
    (sendOk : Nat → Bool) (fs mode : Nat) (data : List Nat) (hfs : 0 < fs)
    (hsend : ∀ k, sendOk k = true) :
    (¬((mode = 1 ∨ mode = 2) ∧ 0 < data.length) →
      Uws.goWrite client fs mode data masks sendOk = ([], data, true)) ∧
    ((mode = 1 ∨ mode = 2) → 0 < data.length →
      (Uws.goWrite client fs mode data masks sendOk).1.length
          = (data.length + fs - 1) / fs ∧
      ∀ j, j < (data.length + fs - 1) / fs →
        ((Uws.goWrite client fs mode data masks sendOk).1.getD j default).b0
            = (if j = (data.length + fs - 1) / fs - 1 then 128 else 0) |||
              (if j = 0 then mode else 0) ∧
        ((Uws.goWrite client fs mode data masks sendOk).1.getD j default).payload.length
            = if j = (data.length + fs - 1) / fs - 1
              then data.length - ((data.length + fs - 1) / fs - 1) * fs
              else fs) := by
  constructor
  · intro h
    unfold Uws.goWrite
    rw [if_neg h]
  · intro hmode hlen
    obtain ⟨hfr1, hlow, _⟩ := Uws.framesBounds fs data.length hfs hlen
    have hceil := Uws.ceil_frames fs data.length hfs
    have hmain := Uws.writeLoop_struct client fs data.length
      (data.length / fs + (if data.length % fs ≠ 0 then 1 else 0)) masks sendOk hfs hsend
      hlow (data.length / fs + (if data.length % fs ≠ 0 then 1 else 0)) 1 mode data
      (by omega) (le_refl 1) hfr1 rfl
    have hgw : Uws.goWrite client fs mode data masks sendOk =
        Uws.writeLoop client fs data.length
          (data.length / fs + (if data.length % fs ≠ 0 then 1 else 0)) masks sendOk
          1 mode data := by
      unfold Uws.goWrite
      rw [if_pos ⟨hmode, hlen⟩]
    rw [hgw, ← hceil]
    set F := data.length / fs + (if data.length % fs ≠ 0 then 1 else 0) with hF
    refine ⟨by rw [hmain.1]; omega, ?_⟩
    intro j hj
    have hj2 : j < F + 1 - 1 := by omega
    have := hmain.2 j hj2
    have e1 : (1 + j = F) ↔ (j = F - 1) := by
      constructor <;> intro <;> omega
    have e2 : (1 + j = 1) ↔ (j = 0) := by
      constructor <;> intro <;> omega
    simp only [e1, e2] at this
    exact this

/-- Witness for claim C3: a BLOB write of 5 bytes with fragment size 2 yields
3 frames. -/
theorem c3_write_fragmentation_witness :
    (Uws.goWrite false 2 2 [9, 8, 7, 6, 5] (fun _ => [0, 0, 0, 0]) (fun _ => true)).1.length
      = (5 + 2 - 1) / 2 :=
  ((c3_write_fragmentation false (fun _ => [0, 0, 0, 0]) (fun _ => true) 2 2 [9, 8, 7, 6, 5]
    (by decide) (fun _ => rfl)).2 (Or.inr rfl) (by decide)).1

/-- Claim C7. For a client-role socket, `Write` masks each fragment in place
with a fresh key, sends it, and unmasks it again before the loop advances or
returns (uws.go:382-395); the caller's data holds exactly its original
contents when `Write` returns, on the success and the write-error path alike. -/
theorem c7_write_restores_data (fs mode : Nat) (data : List Nat) (masks : Nat → List Nat)
    (sendOk : Nat → Bool) (hfs : 0 < fs) (hm : ∀ k, ∀ b ∈ masks k, b < 256)
    (hd : ∀ b ∈ data, b < 256) :
    (Uws.goWrite true fs mode data masks sendOk).2.1 = data := by
  unfold Uws.goWrite
  by_cases h : (mode = 1 ∨ mode = 2) ∧ 0 < data.length
  · rw [if_pos h]
    obtain ⟨hfr1, hlow, _⟩ := Uws.framesBounds fs data.length hfs h.2
    exact Uws.writeLoop_restore fs data.length
      (data.length / fs + (if data.length % fs ≠ 0 then 1 else 0)) masks sendOk hfs hm hlow
      (data.length / fs + (if data.length % fs ≠ 0 then 1 else 0)) 1 mode data
      (by omega) (le_refl 1) rfl hd
  · rw [if_neg h]

/-- Witness for claim C7: a masked two-fragment write (one failing send
included) returns the original bytes. -/
theorem c7_write_restores_data_witness :
    (Uws.goWrite true 2 1 [10, 20, 30] (fun _ => [1, 2, 3, 4])
      (fun k => decide (k = 1))).2.1 = [10, 20, 30] :=
  c7_write_restores_data 2 1 [10, 20, 30] (fun _ => [1, 2, 3, 4]) (fun k => decide (k = 1))
    (by decide) (fun k => show ∀ b ∈ ([1, 2, 3, 4] : List Nat), b < 256 by decide)
    (by decide)

/-- Claim C6. The word-aligned masking primitive `xor` (uws.go:664-683) agrees
with the byte-wise reference `d[i] ^= m[i mod 4]` at every index, including
the unaligned tail after the machine-word blocks: for every 4-byte key and
every byte span the two produce identical results. -/
theorem c6_xor_word_eq_bytewise (mask data : List Nat) (_hlen : mask.length = 4)
    (hm : ∀ b ∈ mask, b < 256) (hd : ∀ b ∈ data, b < 256) :
    Uws.uwsXor mask data = Uws.refMask mask data ∧
    ∀ i, i < data.length →
      (Uws.uwsXor mask data).getD i 0 = data.getD i 0 ^^^ mask.getD (i % 4) 0 := by
  refine ⟨Uws.uwsXor_eq_refMask mask data hm hd, ?_⟩
  intro i hi
  rw [Uws.uwsXor_eq_refMask mask data hm hd]
  have := Uws.refMaskFrom_getD mask data 0 i hi
  simpa [Uws.refMask] using this

/-- Witness for claim C6 at a concrete key and a 13-byte span (one aligned
8-byte block plus a 5-byte tail). -/
theorem c6_xor_word_eq_bytewise_witness :
    Uws.uwsXor [1, 2, 3, 4] (List.range 13) = Uws.refMask [1, 2, 3, 4] (List.range 13) :=
  (c6_xor_word_eq_bytewise [1, 2, 3, 4] (List.range 13) (by decide) (by decide) (by decide)).1

/-- Claim C1. The claim states that every zero numeric option is defaulted from
the section-3 table and clamped, with `ConnectTimeout` defaulting to 10 s and
clamped on its own prior value, and `ProbeTimeout` defaulting to 15 s in both
`Dial` and `Handle`.  The code diverges: `Dial` computes `ConnectTimeout` from
the caller's `ProbeTimeout` (uws.go:104), and `Handle` defaults `ProbeTimeout`
to 10 s, not 15 s (uws.go:310).  This theorem evaluates the embedded clamping
at the failing inputs: a config whose only nonzero field is
`ProbeTimeout = 20 s` gets `ConnectTimeout = 20 s` from `Dial` (the claim
demands the 10 s default since `ConnectTimeout` was zero), and the all-zero
config gets `ProbeTimeout = 10 s` from `Handle` (the claim demands 15 s). -/
theorem c1_connect_timeout_divergence :
    (Uws.dialClamp { ProbeTimeout := 20 * Uws.sec }).ConnectTimeout = 20 * Uws.sec ∧
    (Uws.dialClamp { ProbeTimeout := 20 * Uws.sec }).ConnectTimeout ≠ 10 * Uws.sec ∧
    (Uws.handleClamp {}).ProbeTimeout = 10 * Uws.sec ∧
    (Uws.handleClamp {}).ProbeTimeout ≠ 15 * Uws.sec := by
  refine ⟨by decide, by decide, by decide, by decide⟩

/-- Claim C9. The claim states that `Dial`'s clamping is idempotent for every
numeric option including `ConnectTimeout`.  Because uws.go:104 derives
`ConnectTimeout` from `ProbeTimeout`, a second application of the rules moves
`ConnectTimeout` of the all-zero config from 10 s (the `cval` fallback for a
zero `ProbeTimeout`) to 15 s (the now-clamped `ProbeTimeout`), so the claimed
idempotence fails on the code. -/
theorem c9_clamp_not_idempotent :
    (Uws.dialClamp {}).ConnectTimeout = 10 * Uws.sec ∧
    (Uws.dialClamp (Uws.dialClamp {})).ConnectTimeout = 15 * Uws.sec ∧
    Uws.dialClamp (Uws.dialClamp {}) ≠ Uws.dialClamp {} := by
  refine ⟨by decide, by decide, by decide⟩

namespace Uws

/-! ### Close path (`Close`, uws.go:401-428)

`Close(code)` takes the close mutex, and only when `!closing && connected`
does it set `closing`, invoke `CloseHandler` (when configured), emit the CLOSE
frame via `send`, clear `connected` and close the stream; otherwise it returns
at once.  The close mutex serializes concurrent calls, so any interleaving of
N calls is equivalent to some sequence, which the model below folds over.  The
wire write of the CLOSE frame is modelled as succeeding (a failed write calls
`Close(0)` re-entrantly, which no-ops because `closing` is already set). -/

/-- The `closing`/`connected` flags of a `Socket` (uws.go:73). -/
structure CState where
  closing : Bool
  connected : Bool
  deriving DecidableEq, Repr

/-- Observable events of one `Close` call, in program order: the
`closing` flag set (uws.go:404), the `CloseHandler` invocation (uws.go:407),
the CLOSE frame handed to `send` (uws.go:422), the `connected` flag cleared
(uws.go:423). -/
inductive CEvent where
  | setClosing
  | handler (code : Int)
  | closeFrame (code : Int)
  | setDisconnected
  deriving DecidableEq, Repr

/-- Embedding of one `Close(code)` call (uws.go:401-428) on a socket whose
`CloseHandler` is configured iff `hasHandler`. -/
def goClose (hasHandler : Bool) (code : Int) (s : CState) : CState × List CEvent :=
  if ¬s.closing ∧ s.connected then
    (⟨true, false⟩,
      [CEvent.setClosing] ++ (if hasHandler then [CEvent.handler code] else []) ++
        [CEvent.closeFrame code, CEvent.setDisconnected])
  else (s, [])

/-- A serialized sequence of `Close` calls with the given codes. -/
def goCloseSeq (hasHandler : Bool) : List Int → CState → CState × List CEvent
  | [], s => (s, [])
  | c :: cs, s =>
    let r := goClose hasHandler c s
    let r2 := goCloseSeq hasHandler cs r.1
    (r2.1, r.2 ++ r2.2)

/-- Event filter: `CloseHandler` invocations. -/
def isHandlerEv : CEvent → Bool
  | CEvent.handler _ => true
  | _ => false

/-- Event filter: CLOSE frames on the wire. -/
def isFrameEv : CEvent → Bool
  | CEvent.closeFrame _ => true
  | _ => false

theorem goCloseSeq_closed (hasHandler : Bool) :
    ∀ (cs : List Int) (s : CState), s.closing = true →
      goCloseSeq hasHandler cs s = (s, []) := by
  intro cs
  induction cs with
  | nil => intro s _; rfl
  | cons c cs ih =>
    intro s hs
    show (let r := goClose hasHandler c s
          let r2 := goCloseSeq hasHandler cs r.1
          (r2.1, r.2 ++ r2.2)) = (s, [])
    have hr : goClose hasHandler c s = (s, []) := by
      unfold goClose
      rw [if_neg (by simp [hs])]
    simp only [hr, ih s hs, List.nil_append]

end Uws

/-- Claim C2. On a freshly connected socket (`closing = false`,
`connected = true`) with a configured `CloseHandler`, any serialized sequence
of one or more `Close` calls produces exactly the trace of the first call:
the `closing` flag transitions false to true exactly once, `CloseHandler` runs
exactly once (with the first call's code), exactly one CLOSE frame is emitted
and only after the handler ran, and `connected` transitions true to false
exactly once, after `closing` was set.  All later calls are no-ops. -/
theorem c2_close_idempotent (c : Int) (rest : List Int) :
    Uws.goCloseSeq true (c :: rest) ⟨false, true⟩ =
      (⟨true, false⟩,
        [Uws.CEvent.setClosing, Uws.CEvent.handler c, Uws.CEvent.closeFrame c,
         Uws.CEvent.setDisconnected]) ∧
    ((Uws.goCloseSeq true (c :: rest) ⟨false, true⟩).2.filter Uws.isHandlerEv
        = [Uws.CEvent.handler c]) ∧
    ((Uws.goCloseSeq true (c :: rest) ⟨false, true⟩).2.filter Uws.isFrameEv
        = [Uws.CEvent.closeFrame c]) := by
  have h1 : Uws.goClose true c ⟨false, true⟩ =
      (⟨true, false⟩,
        [Uws.CEvent.setClosing, Uws.CEvent.handler c, Uws.CEvent.closeFrame c,
         Uws.CEvent.setDisconnected]) := by
    unfold Uws.goClose
    rw [if_pos (by simp)]
    rfl
  have h2 : Uws.goCloseSeq true (c :: rest) ⟨false, true⟩ =
      (⟨true, false⟩,
        [Uws.CEvent.setClosing, Uws.CEvent.handler c, Uws.CEvent.closeFrame c,
         Uws.CEvent.setDisconnected]) := by
    show (let r := Uws.goClose true c ⟨false, true⟩
          let r2 := Uws.goCloseSeq true rest r.1
          (r2.1, r.2 ++ r2.2)) = _
    simp only [h1, Uws.goCloseSeq_closed true rest ⟨true, false⟩ rfl, List.append_nil]
  refine ⟨h2, ?_, ?_⟩ <;> rw [h2] <;> rfl

namespace Uws

/-! ### Server upgrade (`Handle`, uws.go:258-341)

The relevant request data are the header values `Connection`, `Upgrade`,
`Sec-WebSocket-Version`, `Sec-WebSocket-Key`, `Sec-WebSocket-Protocol`, the
method, and whether the response writer supports hijacking.  Strings are
byte/char lists.  `Handle` reads `config.Protocols` at uws.go:276 while the
`config == nil` default is only installed at uws.go:304, so a nil config
reaching the negotiation step is a nil-pointer dereference, modelled as the
explicit outcome `panicNilConfig`. -/

/-- A character matched by the subprotocol splitter pattern `[, ]+`. -/
def isSepChar (ch : Char) : Bool := ch == ',' || ch == ' '

/-- Leading token of a string up to (excluding) its first separator char,
paired with the rest starting at that separator. -/
def findTok : List Char → List Char × List Char
  | [] => ([], [])
  | ch :: cs =>
    if isSepChar ch then ([], ch :: cs)
    else
      let r := findTok cs
      (ch :: r.1, r.2)

/-- Drop the maximal leading run of separator chars (the greedy `[, ]+`
match). -/
def dropSeps : List Char → List Char
  | [] => []
  | ch :: cs => if isSepChar ch then dropSeps cs else ch :: cs

/-- Whether the string contains a separator char (a `[, ]+` match). -/
def hasSep (s : List Char) : Bool := s.any isSepChar

/-- Split on maximal `[, ]+` runs with at most `n` result slots: once a single
slot remains the unsplit remainder is returned whole, matching Go's
`Regexp.Split(s, n)` remainder rule (`n = 0` yields the nil slice). -/
def gsplitGo : Nat → List Char → List (List Char)
  | 0, _ => []
  | 1, s => [s]
  | n + 2, s =>
    if hasSep s then (findTok s).1 :: gsplitGo (n + 1) (dropSeps (findTok s).2)
    else [s]

/-- Embedding of `splitter.Split(header, 10)` for the pattern `[, ]+`
(uws.go:277-279) at an arbitrary limit: Go's `Regexp.Split` returns the empty
slice on the empty string and otherwise the limited split. -/
def gsplit (n : Nat) (s : List Char) : List (List Char) :=
  if s.isEmpty then [] else gsplitGo n s

/-- ASCII lowering of a header value (`strings.ToLower`; all header values the
claims touch are ASCII). -/
def toLowerStr (s : List Char) : List Char := s.map Char.toLower

/-- Embedding of `strings.Contains`. -/
def containsStr : List Char → List Char → Bool
  | h, n =>
    if n.isPrefixOf h then true
    else
      match h with
      | [] => false
      | _ :: t => containsStr t n

/-- The request data `Handle` inspects. -/
structure HReq where
  connectionHdr : List Char
  upgradeHdr : List Char
  method : List Char
  secVersion : List Char
  secKey : List Char
  secProtocol : List Char
  hijackable : Bool
  deriving DecidableEq, Repr

/-- The configuration fields `Handle`'s upgrade decision reads. -/
structure HConfig where
  Protocols : List (List Char)
  NeedProtocol : Bool
  deriving DecidableEq, Repr

/-- Outcome of `Handle` on an upgrade request: an HTTP error status written
and returned, a nil-pointer dereference, or the 101 upgrade with the
negotiated `Sec-WebSocket-Protocol` response header (if any). -/
inductive HOut where
  | notHandled
  | status (n : Nat)
  | panicNilConfig
  | upgraded (protocolHdr : Option (List Char))
  deriving DecidableEq, Repr

/-- The subprotocol negotiation of `Handle` (uws.go:275-296): with a
non-empty configured list, the client header is split with limit 10, the loop
keeps the LAST offered value present in the configured set, a non-empty
result is echoed in the response header, an empty one yields 400 when
`NeedProtocol` is set and no header otherwise. -/
def negotiate (cfg : HConfig) (hdr : List Char) : HOut :=
  let cprotocols := if 0 < cfg.Protocols.length then gsplit 10 hdr else []
  let protocol :=
    if 0 < cfg.Protocols.length ∧ 0 < cprotocols.length then
      cprotocols.foldl (fun acc v => if v ∈ cfg.Protocols then v else acc) []
    else []
  if 0 < cfg.Protocols.length ∧ protocol ≠ [] then HOut.upgraded (some protocol)
  else if 0 < cfg.Protocols.length ∧ protocol = [] ∧ cfg.NeedProtocol then
    HOut.status 400
  else HOut.upgraded none

/-- Embedding of the decision path of `Handle` (uws.go:258-301): upgrade
recognition, 405 on non-GET, 400 on bad version/key, 500 without hijack
support, then subprotocol negotiation over `config.Protocols` — reached
before the nil-config default of uws.go:304, so a nil config is dereferenced
here. -/
def goHandle (req : HReq) (config : Option HConfig) : HOut :=
  if containsStr (toLowerStr req.connectionHdr) "upgrade".toList
      ∧ toLowerStr req.upgradeHdr = "websocket".toList then
    if req.method ≠ "GET".toList then HOut.status 405
    else if req.secVersion ≠ "13".toList ∨ req.secKey = [] then HOut.status 400
    else if ¬req.hijackable then HOut.status 500
    else
      match config with
      | none => HOut.panicNilConfig
      | some cfg => negotiate cfg req.secProtocol
  else HOut.notHandled

theorem getLastD_indep {α : Type} : ∀ (xs : List α) (x v a : α),
    ((x :: xs).getLast?).getD v = ((x :: xs).getLast?).getD a := by
  intro xs
  induction xs with
  | nil => intro x v a; rfl
  | cons y ys ih =>
    intro x v a
    rw [List.getLast?_cons_cons]
    exact ih y v a

theorem foldl_lastMatch (ps : List (List Char)) :
    ∀ (l : List (List Char)) (a : List Char),
      l.foldl (fun acc v => if v ∈ ps then v else acc) a
        = ((l.filter (fun v => decide (v ∈ ps))).getLast?).getD a := by
  intro l
  induction l with
  | nil => intro a; rfl
  | cons v t ih =>
    intro a
    show t.foldl _ (if v ∈ ps then v else a) = _
    rw [ih]
    by_cases hv : v ∈ ps
    · rw [if_pos hv]
      have hf : (v :: t).filter (fun v => decide (v ∈ ps))
          = v :: t.filter (fun v => decide (v ∈ ps)) := by
        simp [List.filter, hv]
      rw [hf]
      cases hft : t.filter (fun v => decide (v ∈ ps)) with
      | nil => rfl
      | cons x xs => exact getLastD_indep xs x v a
    · rw [if_neg hv]
      have hf : (v :: t).filter (fun v => decide (v ∈ ps))
          = t.filter (fun v => decide (v ∈ ps)) := by
        simp [List.filter, hv]
      rw [hf]

end Uws

namespace Uws

/-- On a well-formed upgrade request `goHandle` reduces to the negotiation
step (or the nil dereference). -/
theorem goHandle_upgrade_path (req : HReq) (config : Option HConfig)
    (hconn : containsStr (toLowerStr req.connectionHdr) "upgrade".toList = true)
    (hupg : toLowerStr req.upgradeHdr = "websocket".toList)
    (hmethod : req.method = "GET".toList)
    (hver : req.secVersion = "13".toList)
    (hkey : req.secKey ≠ [])
    (hhij : req.hijackable = true) :
    goHandle req config =
      match config with
      | none => HOut.panicNilConfig
      | some cfg => negotiate cfg req.secProtocol := by
  unfold goHandle
  rw [if_pos ⟨hconn, hupg⟩, if_neg (by simp [hmethod]), if_neg (by simp [hver, hkey]),
      if_neg (by simp [hhij])]

/-- Characterization of the negotiation under the limit-10 split. -/
theorem negotiate_lastMatch (cfg : HConfig) (hdr : List Char)
    (hne : 0 < cfg.Protocols.length) (hnn : ([] : List Char) ∉ cfg.Protocols) :
    (∀ p, ((gsplit 10 hdr).filter (fun v => decide (v ∈ cfg.Protocols))).getLast?
          = some p →
        negotiate cfg hdr = HOut.upgraded (some p)) ∧
    ((gsplit 10 hdr).filter (fun v => decide (v ∈ cfg.Protocols)) = [] →
      negotiate cfg hdr =
        if cfg.NeedProtocol then HOut.status 400 else HOut.upgraded none) := by
  have hfold := foldl_lastMatch cfg.Protocols (gsplit 10 hdr) []
  constructor
  · intro p hp
    have hcp : 0 < (gsplit 10 hdr).length := by
      by_contra hl
      have hnil : gsplit 10 hdr = [] := List.length_eq_zero.mp (by omega)
      rw [hnil] at hp
      simp at hp
    have hpmem : p ∈ (gsplit 10 hdr).filter (fun v => decide (v ∈ cfg.Protocols)) :=
      List.mem_of_getLast?_eq_some hp
    have hpps : p ∈ cfg.Protocols := by
      have := List.of_mem_filter hpmem
      simpa using this
    have hpne : p ≠ [] := fun h => hnn (h ▸ hpps)
    unfold negotiate
    simp only [if_pos hne, if_pos (And.intro hne hcp), hfold, hp, Option.getD_some]
    rw [if_pos ⟨hne, hpne⟩]
  · intro hfe
    unfold negotiate
    by_cases hcp : 0 < (gsplit 10 hdr).length
    · simp only [if_pos hne, if_pos (And.intro hne hcp), hfold, hfe,
        List.getLast?_nil, Option.getD_none]
      rw [if_neg (by simp)]
      by_cases hneed : cfg.NeedProtocol
      · rw [if_pos ⟨hne, by simp, hneed⟩, if_pos hneed]
      · rw [if_neg (by simp [hneed]), if_neg hneed]
    · have hnil : gsplit 10 hdr = [] := List.length_eq_zero.mp (by omega)
      have hprot : (if 0 < cfg.Protocols.length ∧ 0 < ([] : List (List Char)).length then
            List.foldl (fun acc v => if v ∈ cfg.Protocols then v else acc) ([] : List Char) []
          else []) = ([] : List Char) := by
        rw [if_neg (by simp)]
      simp only [if_pos hne, hnil, hprot]
      rw [if_neg (by simp)]
      by_cases hneed : cfg.NeedProtocol
      · rw [if_pos ⟨hne, by simp, hneed⟩, if_pos hneed]
      · rw [if_neg (by simp [hneed]), if_neg hneed]

end Uws

/-- Claim C10. `Handle(response, request, nil)` on a well-formed upgradable
request (Connection contains "upgrade", Upgrade is "websocket", method GET,
version 13 with a non-empty key, hijack-capable writer) reads
`config.Protocols` at uws.go:276, before the nil-config default installed at
uws.go:304, and therefore dereferences the nil pointer and panics instead of
completing the upgrade. -/
theorem c10_handle_nil_config_panics (req : Uws.HReq)
    (hconn : Uws.containsStr (Uws.toLowerStr req.connectionHdr) "upgrade".toList = true)
    (hupg : Uws.toLowerStr req.upgradeHdr = "websocket".toList)
    (hmethod : req.method = "GET".toList)
    (hver : req.secVersion = "13".toList)
    (hkey : req.secKey ≠ [])
    (hhij : req.hijackable = true) :
    Uws.goHandle req none = Uws.HOut.panicNilConfig :=
  Uws.goHandle_upgrade_path req none hconn hupg hmethod hver hkey hhij

/-- Witness for claim C10 at a concrete upgradable request. -/
theorem c10_handle_nil_config_panics_witness :
    Uws.goHandle
      ⟨"keep-alive, Upgrade".toList, "WebSocket".toList, "GET".toList, "13".toList,
        "c2Vy".toList, "chat".toList, true⟩ none = Uws.HOut.panicNilConfig :=
  c10_handle_nil_config_panics _ (by decide) (by decide) rfl rfl (by decide) rfl

/-- Counterexample for claim C8 as stated: the code splits the client's
`Sec-WebSocket-Protocol` header with LIMIT 10 (uws.go:278), so with eleven
offered values the tenth slot holds the raw remainder "p10, p11" and the
offered value "p11" — the last one, present in the server's configured list —
is never negotiated: `Handle` replies 400 (with `NeedProtocol`) although the
claim demands a 101 upgrade with "p11".  The second and third conjuncts show
"p11" is a `[, ]+`-separated component of the header and is configured. -/
theorem c8_counterexample :
    Uws.goHandle
      ⟨"upgrade".toList, "websocket".toList, "GET".toList, "13".toList, "k".toList,
        "p1, p2, p3, p4, p5, p6, p7, p8, p9, p10, p11".toList, true⟩
      (some ⟨["p11".toList], true⟩) = Uws.HOut.status 400 ∧
    "p11".toList ∈ Uws.gsplit 100 "p1, p2, p3, p4, p5, p6, p7, p8, p9, p10, p11".toList ∧
    "p11".toList ∈ ([["p11".toList]] : List (List (List Char))).headD [] := by
  refine ⟨by decide, by decide, by decide⟩

/-- Claim C8, amended: for a server-side upgrade with a non-empty configured
protocol list (of non-empty names), `Handle` splits the client's
`Sec-WebSocket-Protocol` header on `[, ]+` INTO AT MOST TEN PARTS (the tenth
being the raw remainder) and negotiates the LAST of those parts that appears
in the configured list; if none matches and `NeedProtocol` is set it replies
400, and without `NeedProtocol` the response protocol header is omitted. -/
theorem c8_protocol_negotiation (req : Uws.HReq) (cfg : Uws.HConfig)
    (hconn : Uws.containsStr (Uws.toLowerStr req.connectionHdr) "upgrade".toList = true)
    (hupg : Uws.toLowerStr req.upgradeHdr = "websocket".toList)
    (hmethod : req.method = "GET".toList)
    (hver : req.secVersion = "13".toList)
    (hkey : req.secKey ≠ [])
    (hhij : req.hijackable = true)
    (hne : 0 < cfg.Protocols.length)
    (hnn : ([] : List Char) ∉ cfg.Protocols) :
    (∀ p, ((Uws.gsplit 10 req.secProtocol).filter
          (fun v => decide (v ∈ cfg.Protocols))).getLast? = some p →
        Uws.goHandle req (some cfg) = Uws.HOut.upgraded (some p)) ∧
    ((Uws.gsplit 10 req.secProtocol).filter (fun v => decide (v ∈ cfg.Protocols)) = [] →
      Uws.goHandle req (some cfg) =
        if cfg.NeedProtocol then Uws.HOut.status 400 else Uws.HOut.upgraded none) := by
  have hpath := Uws.goHandle_upgrade_path req (some cfg) hconn hupg hmethod hver hkey hhij
  have hchar := Uws.negotiate_lastMatch cfg req.secProtocol hne hnn
  constructor
  · intro p hp
    rw [hpath]
    exact hchar.1 p hp
  · intro hfe
    rw [hpath]
    exact hchar.2 hfe

/-- Witness for claim C8 at a concrete request: the client offers
"foo, chat", the server configures ["chat"], and the upgrade negotiates
"chat". -/
theorem c8_protocol_negotiation_witness :
    Uws.goHandle
      ⟨"upgrade".toList, "websocket".toList, "GET".toList, "13".toList, "k".toList,
        "foo, chat".toList, true⟩
      (some ⟨["chat".toList], false⟩) = Uws.HOut.upgraded (some "chat".toList) :=
  (c8_protocol_negotiation
    ⟨"upgrade".toList, "websocket".toList, "GET".toList, "13".toList, "k".toList,
      "foo, chat".toList, true⟩
    ⟨["chat".toList], false⟩
    (by decide) (by decide) rfl rfl (by decide) rfl (by decide) (by decide)).1
    "chat".toList (by decide)

namespace Uws

/-! ### Receive loop, frame decoding (`receive`, uws.go:449-643)

The inner decoding loop (uws.go:483-615) is embedded as a step function over
the decoder state and the buffered byte window `buffer[roffset:woffset]`.
Each `innerStep` is one pass through the loop body: header latching with the
protocol-violation and oversize checks, then payload accumulation into the
reassembly buffer `data` or the control buffer.  Go `int` values that can
come from a 64-bit wire field (`size`, `dsize`, `doffset`) are `Int`, with
the `int(binary.BigEndian.Uint64(...))` conversion wrapping mod 2^64 into the
signed range.  `int(math.Min(float64(a), float64(b)))` at uws.go:546/579 is
modelled as `Nat` min: the window side is at most the 256 KiB read buffer, so
either both operands are below 2^53 (where float64 is exact) or the window
side is the smaller one.  The UTF-8 validity test (`utf8.Valid`, Go standard
library) and the `MessageHandler` callback are environment parameters; PING
replies and their `send` are modelled as succeeding. -/

/-- The decoder state of `receive` (uws.go:453-455): latched header fields,
remaining frame size (-1 when no header is latched), current mask key, the
reassembly opcode and bookkeeping, the reassembly buffer `data` and the
control-frame buffer. -/
structure RState where
  fin : Nat
  opcode : Nat
  size : Int
  mask : List Nat
  dmode : Nat
  dsize : Int
  doffset : Int
  dlast : Bool
  data : List Nat
  control : List Nat
  deriving DecidableEq, Repr

/-- The state at loop entry (uws.go:453-455): no latched header, zeroed
4-byte mask buffer, empty reassembly. -/
def initR : RState :=
  { fin := 0, opcode := 0, size := -1, mask := [0, 0, 0, 0], dmode := 0,
    dsize := 0, doffset := 0, dlast := false, data := [], control := [] }

/-- Big-endian 16-bit read (`binary.BigEndian.Uint16`). -/
def be16dec (l : List Nat) : Nat := 256 * l.getD 0 0 + l.getD 1 0

/-- Big-endian 64-bit read (`binary.BigEndian.Uint64`). -/
def be64dec (l : List Nat) : Nat :=
  (List.range 8).foldl (fun acc i => 256 * acc + l.getD i 0) 0

/-- Go's `int(u)` for a `uint64` on a 64-bit platform: wrap into the signed
64-bit range. -/
def goInt64 (n : Nat) : Int :=
  if n % 2 ^ 64 < 2 ^ 63 then ((n % 2 ^ 64 : Nat) : Int)
  else ((n % 2 ^ 64 : Nat) : Int) - 2 ^ 64

/-- The protocol-violation test of the header parser (uws.go:487-489): wrong
MASK bit for the role, a non-final control frame, or an opcode outside the
data/control sets. -/
def hdrViolation (client : Bool) (fin opcode b1 : Nat) : Prop :=
  (client = true ∧ b1 &&& 128 ≠ 0) ∨ (client = false ∧ b1 &&& 128 = 0) ∨
  (fin = 0 ∧ 8 ≤ opcode ∧ opcode ≤ 10) ∨
  (opcode ≠ 0 ∧ opcode ≠ 1 ∧ opcode ≠ 2 ∧ (opcode < 8 ∨ 10 < opcode))

instance (client : Bool) (fin opcode b1 : Nat) :
    Decidable (hdrViolation client fin opcode b1) := by
  unfold hdrViolation
  exact inferInstance

/-- The oversize test applied to a freshly decoded header (uws.go:529): a
zero-length frame with a data-range opcode, a control frame longer than 125
bytes, or a final frame larger than the message cap. -/
def hdrOversized (opcode fin : Nat) (size : Int) (msgSize : Nat) : Prop :=
  (opcode ≤ 2 ∧ size = 0) ∨ (2 < opcode ∧ 125 < size) ∨
  (fin = 1 ∧ (msgSize : Int) < size)

instance (opcode fin : Nat) (size : Int) (msgSize : Nat) :
    Decidable (hdrOversized opcode fin size msgSize) := by
  unfold hdrOversized
  exact inferInstance

/-- Outcome of one header-parse attempt (uws.go:485-535). -/
inductive HdrOut where
  | needMore (st : RState)
  | violation
  | oversized
  | ok (st : RState) (win : List Nat)
  deriving Repr, DecidableEq

/-- Final phase of a successful header parse (uws.go:529-535): the oversize
check, then `dsize` accumulation for a data assembly. -/
def finishHdr (msgSize : Nat) (st : RState) (fin opcode : Nat) (size : Int)
    (dmode : Nat) (dlast : Bool) (mask : List Nat) (win : List Nat) : HdrOut :=
  if hdrOversized opcode fin size msgSize then HdrOut.oversized
  else
    HdrOut.ok
      { st with
        fin := fin
        opcode := opcode
        size := size
        mask := mask
        dmode := dmode
        dlast := dlast
        dsize := if dmode ≠ 0 then st.dsize + size else st.dsize } win

/-- First header byte of the buffered window (uws.go:486). -/
def hdrB0 (win : List Nat) : Nat := win.getD 0 0

/-- Second header byte of the buffered window (uws.go:486). -/
def hdrB1 (win : List Nat) : Nat := win.getD 1 0

/-- FIN bit of the pending header: `buffer[roffset] >> 7` (uws.go:486). -/
def hdrFin (win : List Nat) : Nat := hdrB0 win >>> 7

/-- Opcode of the pending header: `buffer[roffset] & 0x0f` (uws.go:486). -/
def hdrOpcode (win : List Nat) : Nat := hdrB0 win &&& 15

/-- 7-bit length code: `buffer[roffset+1] & 0x7f` (uws.go:486). -/
def hdrLen0 (win : List Nat) : Nat := hdrB1 win &&& 127

/-- `dmode` after the header is seen (uws.go:497-499): a TEXT/BLOB opcode
latches the assembly opcode, anything else keeps the current one. -/
def hdrDmode (st : RState) (win : List Nat) : Nat :=
  if hdrOpcode win = 1 ∨ hdrOpcode win = 2 then hdrOpcode win else st.dmode

/-- `dlast` after the header is seen (uws.go:500-501): set when an assembly is
open and this frame is final. -/
def hdrDlast (st : RState) (win : List Nat) : Bool :=
  if hdrDmode st win ≠ 0 ∧ hdrFin win = 1 then true else st.dlast

/-- Mask-key byte count expected in the header: 4 for a server (uws.go:457). -/
def smaskOf (client : Bool) : Nat := if client then 0 else 4

/-- Embedding of the header-latching block of the inner loop (uws.go:485-535):
requires two bytes, rejects protocol violations, waits for the mask and any
extended length bytes, decodes the 7/16/64-bit length, copies the mask for a
server, and runs the oversize check.  `needMore` mirrors exactly which state
fields the source has already mutated when it sets `size = -1` and breaks. -/
def parseHeader (client : Bool) (msgSize : Nat) (st : RState) (win : List Nat) : HdrOut :=
  if 2 ≤ win.length then
    if hdrViolation client (hdrFin win) (hdrOpcode win) (hdrB1 win) then HdrOut.violation
    else if client = false ∧ win.length < 2 + smaskOf client then
      HdrOut.needMore { st with
        fin := hdrFin win
        opcode := hdrOpcode win
        size := -1 }
    else if hdrLen0 win = 126 then
      if win.length < 4 + smaskOf client then
        HdrOut.needMore { st with
          fin := hdrFin win
          opcode := hdrOpcode win
          size := -1
          dmode := hdrDmode st win
          dlast := hdrDlast st win }
      else
        finishHdr msgSize st (hdrFin win) (hdrOpcode win)
          ((be16dec (win.drop 2) : Nat) : Int) (hdrDmode st win) (hdrDlast st win)
          (if client then st.mask else (win.drop 4).take 4)
          (win.drop (4 + smaskOf client))
    else if hdrLen0 win = 127 then
      if win.length < 10 + smaskOf client then
        HdrOut.needMore { st with
          fin := hdrFin win
          opcode := hdrOpcode win
          size := -1
          dmode := hdrDmode st win
          dlast := hdrDlast st win }
      else
        finishHdr msgSize st (hdrFin win) (hdrOpcode win)
          (goInt64 (be64dec (win.drop 2))) (hdrDmode st win) (hdrDlast st win)
          (if client then st.mask else (win.drop 10).take 4)
          (win.drop (10 + smaskOf client))
    else
      finishHdr msgSize st (hdrFin win) (hdrOpcode win) ((hdrLen0 win : Nat) : Int)
        (hdrDmode st win) (hdrDlast st win)
        (if client then st.mask else (win.drop 2).take 4)
        (win.drop (2 + smaskOf client))
  else HdrOut.needMore st

/-- Outcome of one pass through the inner loop body. -/
inductive StepOut where
  | closeAbort (code : Nat)
  | peerClose (code : Nat)
  | more (st : RState) (win : List Nat)
  | stall (st : RState) (win : List Nat)
  deriving Repr, DecidableEq

/-- End of a loop pass (uws.go:611-614): break out of the inner loop when the
window is exhausted, else continue. -/
def endCheck (st : RState) (win : List Nat) : StepOut :=
  if win.length = 0 then StepOut.stall st [] else StepOut.more st win

/-- In-place `xor(mask, d[a:b])` (uws.go:556, 584).  In every state the loop
reaches, `0 ≤ a ≤ b ≤ d.length`; out-of-range bounds (a Go slice panic) are
clamped here, a corner no claim depends on. -/
def xorSegApply (mask : List Nat) (d : List Nat) (a b : Int) : List Nat :=
  updateSeg d a.toNat (b.toNat - a.toNat) (uwsXor mask)

/-- Bytes consumed by this pass: `min(woffset-roffset, size)` (uws.go:546,
579). -/
def pmax (st : RState) (win : List Nat) : Nat := min win.length st.size.toNat

/-- The reassembly buffer after the append (uws.go:551). -/
def pdata (st : RState) (win : List Nat) : List Nat := st.data ++ win.take (pmax st win)

/-- The control buffer after the append (uws.go:580). -/
def pcontrol (st : RState) (win : List Nat) : List Nat :=
  st.control ++ win.take (pmax st win)

/-- The remaining frame size after the append (uws.go:552, 581). -/
def psize (st : RState) (win : List Nat) : Int := st.size - pmax st win

/-- The window after the append (uws.go:553, 582). -/
def pwin (st : RState) (win : List Nat) : List Nat := win.drop (pmax st win)

/-- The reassembly buffer after the per-frame unmasking (uws.go:555-557): a
server XORs `data[doffset:dsize]` with the current key, a client receives
unmasked frames. -/
def punmasked (client : Bool) (st : RState) (win : List Nat) : List Nat :=
  if client then pdata st win else xorSegApply st.mask (pdata st win) st.doffset st.dsize

/-- The decoder state after a full message is delivered (uws.go:571): the
reassembly bookkeeping is cleared and the frame is closed. -/
def presetSt (st : RState) : RState :=
  { st with
    size := -1
    dmode := 0
    dsize := 0
    doffset := 0
    dlast := false
    data := [] }

/-- The control buffer after the per-frame unmasking (uws.go:583-585). -/
def pcontrol2 (client : Bool) (st : RState) (win : List Nat) : List Nat :=
  if client then pcontrol st win else uwsXor st.mask (pcontrol st win)

/-- State after a partial data append (frame still open). -/
def pdataOpen (st : RState) (win : List Nat) : RState :=
  { st with size := psize st win, data := pdata st win }

/-- State after a completed non-final data frame (uws.go:554-558, 573). -/
def pdataFrameDone (client : Bool) (st : RState) (win : List Nat) : RState :=
  { st with size := -1, data := punmasked client st win, doffset := st.dsize }

/-- State after a partial control append (frame still open). -/
def pcontrolOpen (st : RState) (win : List Nat) : RState :=
  { st with size := psize st win, control := pcontrol st win }

/-- State after a handled control frame (uws.go:605-606). -/
def pcontrolDone (st : RState) : RState := { st with size := -1, control := [] }

/-- Embedding of the payload-accumulation block of the inner loop
(uws.go:541-609): copy `min(available, remaining)` bytes into the reassembly
buffer (rejecting an append that would exceed the message cap) or into the
control buffer; on frame completion unmask (server role), deliver or handle
the control frame, and reset the per-frame state. -/
def processPayload (client : Bool) (msgSize : Nat) (utf8v : List Nat → Bool)
    (st : RState) (win : List Nat) : StepOut :=
  if st.dmode ≠ 0 then
    if msgSize < st.data.length + pmax st win then StepOut.closeAbort 1009
    else if psize st win ≤ 0 ∧ st.dsize ≤ ((pdata st win).length : Int) then
      if st.dlast then
        if st.dmode = 1 ∧ ¬utf8v (punmasked client st win) then StepOut.closeAbort 1007
        else endCheck (presetSt st) (pwin st win)
      else endCheck (pdataFrameDone client st win) (pwin st win)
    else endCheck (pdataOpen st win) (pwin st win)
  else
    if psize st win ≤ 0 then
      if st.opcode = 8 then
        StepOut.peerClose
          (if 2 ≤ (pcontrol2 client st win).length then be16dec (pcontrol2 client st win)
           else 0)
      else endCheck (pcontrolDone st) (pwin st win)
    else endCheck (pcontrolOpen st win) (pwin st win)

/-- Dispatch on the result of a header-parse attempt: insufficient bytes break
the inner loop, a violation exits with 1002, an oversize with 1009, and a
latched header with a non-negative size proceeds into the payload block
(uws.go:490-491, 530-531, 541). -/
def afterParse (client : Bool) (msgSize : Nat) (utf8v : List Nat → Bool)
    (win : List Nat) : HdrOut → StepOut
  | HdrOut.needMore st2 => StepOut.stall st2 win
  | HdrOut.violation => StepOut.closeAbort 1002
  | HdrOut.oversized => StepOut.closeAbort 1009
  | HdrOut.ok st2 win2 =>
    if 0 ≤ st2.size then processPayload client msgSize utf8v st2 win2
    else endCheck st2 win2

/-- One pass through the inner loop body (uws.go:483-615): latch a header when
none is pending, then accumulate payload while a frame is open. -/
def innerStep (client : Bool) (msgSize : Nat) (utf8v : List Nat → Bool)
    (st : RState) (win : List Nat) : StepOut :=
  if st.size < 0 then
    afterParse client msgSize utf8v win (parseHeader client msgSize st win)
  else processPayload client msgSize utf8v st win

end Uws

namespace Uws

theorem endCheck_ne_closeAbort (st : RState) (win : List Nat) (c : Nat) :
    endCheck st win ≠ StepOut.closeAbort c := by
  unfold endCheck
  split <;> simp

theorem endCheck_state (st : RState) (win : List Nat) (st2 : RState) (win2 : List Nat)
    (h : endCheck st win = StepOut.more st2 win2 ∨ endCheck st win = StepOut.stall st2 win2) :
    st2 = st := by
  unfold endCheck at h
  rcases h with h | h <;> split at h <;> simp_all

theorem finishHdr_ne_violation (msgSize : Nat) (st : RState) (fin opcode : Nat)
    (size : Int) (dmode : Nat) (dlast : Bool) (mask : List Nat) (win : List Nat) :
    finishHdr msgSize st fin opcode size dmode dlast mask win ≠ HdrOut.violation := by
  unfold finishHdr
  split <;> simp

theorem finishHdr_data (msgSize : Nat) (st : RState) (fin opcode : Nat) (size : Int)
    (dmode : Nat) (dlast : Bool) (mask : List Nat) (win : List Nat) (st2 : RState)
    (win2 : List Nat)
    (h : finishHdr msgSize st fin opcode size dmode dlast mask win = HdrOut.ok st2 win2) :
    st2.data = st.data := by
  unfold finishHdr at h
  split at h
  · simp at h
  · simp only [HdrOut.ok.injEq] at h
    rw [← h.1]

theorem finishHdr_ne_needMore (msgSize : Nat) (st : RState) (fin opcode : Nat)
    (size : Int) (dmode : Nat) (dlast : Bool) (mask : List Nat) (win : List Nat)
    (st2 : RState) :
    finishHdr msgSize st fin opcode size dmode dlast mask win ≠ HdrOut.needMore st2 := by
  unfold finishHdr
  split <;> simp

theorem parseHeader_violation_iff (client : Bool) (msgSize : Nat) (st : RState)
    (win : List Nat) :
    parseHeader client msgSize st win = HdrOut.violation ↔
      2 ≤ win.length ∧ hdrViolation client (hdrFin win) (hdrOpcode win) (hdrB1 win) := by
  unfold parseHeader
  by_cases h2 : 2 ≤ win.length
  · rw [if_pos h2]
    by_cases hv : hdrViolation client (hdrFin win) (hdrOpcode win) (hdrB1 win)
    · rw [if_pos hv]
      simp [h2, hv]
    · rw [if_neg hv]
      constructor
      · intro h
        split at h
        · simp at h
        · split at h
          · split at h
            · simp at h
            · exact absurd h (finishHdr_ne_violation _ _ _ _ _ _ _ _ _)
          · split at h
            · split at h
              · simp at h
              · exact absurd h (finishHdr_ne_violation _ _ _ _ _ _ _ _ _)
            · exact absurd h (finishHdr_ne_violation _ _ _ _ _ _ _ _ _)
      · intro h
        exact absurd h.2 hv
  · rw [if_neg h2]
    constructor
    · intro h
      simp at h
    · intro h
      exact absurd h.1 h2

theorem parseHeader_data (client : Bool) (msgSize : Nat) (st : RState) (win : List Nat) :
    (∀ st2, parseHeader client msgSize st win = HdrOut.needMore st2 → st2.data = st.data) ∧
    (∀ st2 win2, parseHeader client msgSize st win = HdrOut.ok st2 win2 →
      st2.data = st.data) := by
  constructor
  · intro st2 h
    unfold parseHeader at h
    split at h
    · split at h
      · simp at h
      · split at h
        · simp only [HdrOut.needMore.injEq] at h
          rw [← h]
        · split at h
          · split at h
            · simp only [HdrOut.needMore.injEq] at h
              rw [← h]
            · exact absurd h (finishHdr_ne_needMore _ _ _ _ _ _ _ _ _ _)
          · split at h
            · split at h
              · simp only [HdrOut.needMore.injEq] at h
                rw [← h]
              · exact absurd h (finishHdr_ne_needMore _ _ _ _ _ _ _ _ _ _)
            · exact absurd h (finishHdr_ne_needMore _ _ _ _ _ _ _ _ _ _)
    · simp only [HdrOut.needMore.injEq] at h
      rw [← h]
  · intro st2 win2 h
    unfold parseHeader at h
    split at h
    · split at h
      · simp at h
      · split at h
        · simp at h
        · split at h
          · split at h
            · simp at h
            · exact finishHdr_data _ _ _ _ _ _ _ _ _ _ _ h
          · split at h
            · split at h
              · simp at h
              · exact finishHdr_data _ _ _ _ _ _ _ _ _ _ _ h
            · exact finishHdr_data _ _ _ _ _ _ _ _ _ _ _ h
    · simp at h

end Uws

namespace Uws

theorem processPayload_1009_iff (client : Bool) (msgSize : Nat) (utf8v : List Nat → Bool)
    (st : RState) (win : List Nat) :
    processPayload client msgSize utf8v st win = StepOut.closeAbort 1009 ↔
      st.dmode ≠ 0 ∧ msgSize < st.data.length + pmax st win := by
  unfold processPayload
  by_cases hdm : st.dmode ≠ 0
  · rw [if_pos hdm]
    by_cases ho : msgSize < st.data.length + pmax st win
    · rw [if_pos ho]
      simp [hdm, ho]
    · rw [if_neg ho]
      constructor
      · intro h
        split at h
        · split at h
          · split at h
            · exact absurd h (by decide)
            · exact absurd h (endCheck_ne_closeAbort _ _ _)
          · exact absurd h (endCheck_ne_closeAbort _ _ _)
        · exact absurd h (endCheck_ne_closeAbort _ _ _)
      · intro h
        exact absurd h.2 ho
  · rw [if_neg hdm]
    constructor
    · intro h
      split at h
      · split at h
        · simp at h
        · exact absurd h (endCheck_ne_closeAbort _ _ _)
      · exact absurd h (endCheck_ne_closeAbort _ _ _)
    · intro h
      exact absurd h.1 hdm

theorem processPayload_ne_1002 (client : Bool) (msgSize : Nat) (utf8v : List Nat → Bool)
    (st : RState) (win : List Nat) :
    processPayload client msgSize utf8v st win ≠ StepOut.closeAbort 1002 := by
  unfold processPayload
  split
  · split
    · decide
    · split
      · split
        · split
          · decide
          · exact endCheck_ne_closeAbort _ _ _
        · exact endCheck_ne_closeAbort _ _ _
      · exact endCheck_ne_closeAbort _ _ _
  · split
    · split
      · simp
      · exact endCheck_ne_closeAbort _ _ _
    · exact endCheck_ne_closeAbort _ _ _

theorem updateSeg_length_any (d : List Nat) (off size : Nat) (f : List Nat → List Nat)
    (hf : ∀ s, (f s).length = s.length) : (updateSeg d off size f).length = d.length := by
  simp only [updateSeg, seg, List.length_append, List.length_take, List.length_drop, hf]
  omega

theorem punmasked_length (client : Bool) (st : RState) (win : List Nat) :
    (punmasked client st win).length = (pdata st win).length := by
  unfold punmasked
  split
  · rfl
  · exact updateSeg_length_any _ _ _ _ (fun s => uwsXor_length st.mask s)

theorem pdata_length_le (msgSize : Nat) (st : RState) (win : List Nat)
    (ho : ¬msgSize < st.data.length + pmax st win) :
    (pdata st win).length ≤ msgSize := by
  have : (win.take (pmax st win)).length ≤ pmax st win := by
    simp [List.length_take]
  simp only [pdata, List.length_append]
  omega

theorem processPayload_data_bound (client : Bool) (msgSize : Nat)
    (utf8v : List Nat → Bool) (st : RState) (win : List Nat)
    (hdb : st.data.length ≤ msgSize) :
    ∀ st2 win2,
      processPayload client msgSize utf8v st win = StepOut.more st2 win2 ∨
      processPayload client msgSize utf8v st win = StepOut.stall st2 win2 →
      st2.data.length ≤ msgSize := by
  intro st2 win2 h
  unfold processPayload at h
  split at h
  · split at h
    · rcases h with h | h <;> simp at h
    case isFalse ho =>
      split at h
      · split at h
        · split at h
          · rcases h with h | h <;> simp at h
          · have := endCheck_state _ _ _ _ h
            rw [this]
            simp [presetSt]
        · have := endCheck_state _ _ _ _ h
          rw [this]
          show (punmasked client st win).length ≤ msgSize
          rw [punmasked_length]
          exact pdata_length_le msgSize st win ho
      · have := endCheck_state _ _ _ _ h
        rw [this]
        show (pdata st win).length ≤ msgSize
        exact pdata_length_le msgSize st win ho
  · split at h
    · split at h
      · rcases h with h | h <;> simp at h
      · have := endCheck_state _ _ _ _ h
        rw [this]
        exact hdb
    · have := endCheck_state _ _ _ _ h
      rw [this]
      exact hdb

end Uws

namespace Uws

theorem hdrViolation_equiv (client : Bool) (fin op b1 : Nat) :
    hdrViolation client fin op b1 ↔
      ((client = true ∧ b1 &&& 128 ≠ 0) ∨ (client = false ∧ b1 &&& 128 = 0) ∨
       ((op = 8 ∨ op = 9 ∨ op = 10) ∧ fin = 0) ∨
       (op ≠ 0 ∧ op ≠ 1 ∧ op ≠ 2 ∧ op ≠ 8 ∧ op ≠ 9 ∧ op ≠ 10)) := by
  unfold hdrViolation
  cases client <;> simp <;> omega

theorem innerStep_1002_iff (client : Bool) (msgSize : Nat) (utf8v : List Nat → Bool)
    (st : RState) (win : List Nat) :
    innerStep client msgSize utf8v st win = StepOut.closeAbort 1002 ↔
      st.size < 0 ∧ parseHeader client msgSize st win = HdrOut.violation := by
  unfold innerStep
  by_cases hsz : st.size < 0
  · rw [if_pos hsz]
    cases hp : parseHeader client msgSize st win with
    | needMore st2 => simp [afterParse, hsz]
    | violation => simp [afterParse, hsz]
    | oversized => simp [afterParse, hsz]
    | ok st2 win2 =>
      simp only [afterParse, hsz, true_and]
      constructor
      · intro h
        split at h
        · exact absurd h (processPayload_ne_1002 _ _ _ _ _)
        · exact absurd h (endCheck_ne_closeAbort _ _ _)
      · intro hviol
        simp at hviol
  · rw [if_neg hsz]
    constructor
    · intro h
      exact absurd h (processPayload_ne_1002 _ _ _ _ _)
    · rintro ⟨h, _⟩
      exact absurd h hsz

/-- The pending-append overflow test (uws.go:547): an open assembly whose
total would pass the message cap. -/
def appendOverflow (msgSize : Nat) (st : RState) (win : List Nat) : Prop :=
  st.dmode ≠ 0 ∧ msgSize < st.data.length + pmax st win

instance (msgSize : Nat) (st : RState) (win : List Nat) :
    Decidable (appendOverflow msgSize st win) := by
  unfold appendOverflow
  exact inferInstance

/-- The exact circumstances in which one pass of the inner loop aborts with
OVERSIZED: a freshly decoded header failing the uws.go:529 check, or a
pending append that would pass the cap (uws.go:547) — directly after latching
a header, or while an already-latched frame continues. -/
def oversizedTrigger (client : Bool) (msgSize : Nat) (st : RState) (win : List Nat) :
    Prop :=
  (st.size < 0 ∧ parseHeader client msgSize st win = HdrOut.oversized) ∨
  (st.size < 0 ∧ ∃ st2 win2, parseHeader client msgSize st win = HdrOut.ok st2 win2 ∧
    0 ≤ st2.size ∧ appendOverflow msgSize st2 win2) ∨
  (0 ≤ st.size ∧ appendOverflow msgSize st win)

theorem innerStep_1009_iff (client : Bool) (msgSize : Nat) (utf8v : List Nat → Bool)
    (st : RState) (win : List Nat) :
    innerStep client msgSize utf8v st win = StepOut.closeAbort 1009 ↔
      oversizedTrigger client msgSize st win := by
  unfold innerStep oversizedTrigger
  by_cases hsz : st.size < 0
  · rw [if_pos hsz]
    cases hp : parseHeader client msgSize st win with
    | needMore st2 =>
      simp only [afterParse, hsz, true_and]
      constructor
      · intro h
        simp at h
      · rintro (habs | ⟨st3, win3, habs, _⟩ | ⟨habs, _⟩)
        · simp at habs
        · simp at habs
        · omega
    | violation =>
      simp only [afterParse, hsz, true_and]
      constructor
      · intro h
        exact absurd h (by decide)
      · rintro (habs | ⟨st3, win3, habs, _⟩ | ⟨habs, _⟩)
        · simp at habs
        · simp at habs
        · omega
    | oversized =>
      simp only [afterParse, hsz, true_and]
      constructor
      · intro _
        exact Or.inl trivial
      · intro _
        trivial
    | ok st2 win2 =>
      simp only [afterParse, hsz, true_and]
      by_cases hpos : 0 ≤ st2.size
      · rw [if_pos hpos, processPayload_1009_iff]
        constructor
        · intro hov
          exact Or.inr (Or.inl ⟨st2, win2, rfl, hpos, hov⟩)
        · rintro (habs | ⟨st3, win3, heq, hpos3, hov⟩ | ⟨habs, _⟩)
          · simp at habs
          · simp only [HdrOut.ok.injEq] at heq
            rw [← heq.1, ← heq.2] at hov
            exact hov
          · omega
      · rw [if_neg hpos]
        constructor
        · intro h
          exact absurd h (endCheck_ne_closeAbort _ _ _)
        · rintro (habs | ⟨st3, win3, heq, hpos3, hov⟩ | ⟨habs, _⟩)
          · simp at habs
          · simp only [HdrOut.ok.injEq] at heq
            rw [← heq.1] at hpos3
            exact absurd hpos3 hpos
          · omega
  · rw [if_neg hsz, processPayload_1009_iff]
    constructor
    · intro h
      exact Or.inr (Or.inr ⟨by omega, h⟩)
    · rintro (⟨habs, _⟩ | ⟨habs, _⟩ | ⟨_, h⟩)
      · omega
      · omega
      · exact h

theorem innerStep_data_bound (client : Bool) (msgSize : Nat) (utf8v : List Nat → Bool)
    (st : RState) (win : List Nat) (hdb : st.data.length ≤ msgSize) :
    ∀ st2 win2,
      innerStep client msgSize utf8v st win = StepOut.more st2 win2 ∨
      innerStep client msgSize utf8v st win = StepOut.stall st2 win2 →
      st2.data.length ≤ msgSize := by
  intro st2 win2 h
  unfold innerStep at h
  split at h
  · cases hp : parseHeader client msgSize st win with
    | needMore st3 =>
      rw [hp] at h
      simp only [afterParse] at h
      rcases h with h | h
      · simp at h
      · simp only [StepOut.stall.injEq] at h
        rw [← h.1, (parseHeader_data client msgSize st win).1 st3 hp]
        exact hdb
    | violation =>
      rw [hp] at h
      simp only [afterParse] at h
      rcases h with h | h <;> simp at h
    | oversized =>
      rw [hp] at h
      simp only [afterParse] at h
      rcases h with h | h <;> simp at h
    | ok st3 win3 =>
      rw [hp] at h
      simp only [afterParse] at h
      have hd3 : st3.data.length ≤ msgSize := by
        rw [(parseHeader_data client msgSize st win).2 st3 win3 hp]
        exact hdb
      split at h
      · exact processPayload_data_bound client msgSize utf8v st3 win3 hd3 st2 win2 h
      · have := endCheck_state _ _ _ _ h
        rw [this]
        exact hd3
  · exact processPayload_data_bound client msgSize utf8v st win hdb st2 win2 h

end Uws

/-- Claim C5. One pass of the receive loop exits with close code 1002
(ProtocolViolation) exactly when it examines an incoming frame header (a
latched header is not pending and two header bytes are available) and one of
these holds: the socket is client-role and the MASK bit is set; the socket is
server-role and the MASK bit is clear; the frame is a control frame (opcode
8, 9 or 10) with FIN = 0; or the opcode lies outside {0, 1, 2, 8, 9, 10}. -/
theorem c5_protocol_violation (client : Bool) (msgSize : Nat) (utf8v : List Nat → Bool)
    (st : Uws.RState) (win : List Nat) :
    Uws.innerStep client msgSize utf8v st win = Uws.StepOut.closeAbort 1002 ↔
      st.size < 0 ∧ 2 ≤ win.length ∧
        ((client = true ∧ win.getD 1 0 &&& 128 ≠ 0) ∨
         (client = false ∧ win.getD 1 0 &&& 128 = 0) ∨
         ((win.getD 0 0 &&& 15 = 8 ∨ win.getD 0 0 &&& 15 = 9 ∨ win.getD 0 0 &&& 15 = 10) ∧
           win.getD 0 0 >>> 7 = 0) ∨
         (win.getD 0 0 &&& 15 ≠ 0 ∧ win.getD 0 0 &&& 15 ≠ 1 ∧ win.getD 0 0 &&& 15 ≠ 2 ∧
          win.getD 0 0 &&& 15 ≠ 8 ∧ win.getD 0 0 &&& 15 ≠ 9 ∧
          win.getD 0 0 &&& 15 ≠ 10)) := by
  rw [Uws.innerStep_1002_iff, Uws.parseHeader_violation_iff]
  exact and_congr_right fun _ => and_congr_right fun _ =>
    Uws.hdrViolation_equiv client (Uws.hdrFin win) (Uws.hdrOpcode win) (Uws.hdrB1 win)

/-- Counterexample for claim C4 as stated: a zero-length CONTINUATION frame
(opcode 0) also triggers OVERSIZED, because the uws.go:529 check reads
`opcode <= BLOB && size == 0`, i.e. any opcode up to 2, not only TEXT or BLOB.
Here a server-role step decodes the masked frame `0x80 0x80 <key>` (FIN = 1,
opcode 0, declared length 0) from the initial state — no TEXT/BLOB frame, no
control frame over 125 bytes, an empty reassembly buffer — and still exits
with 1009. -/
theorem c4_counterexample :
    Uws.innerStep false 4096 (fun _ => true) Uws.initR [128, 128, 0, 0, 0, 0]
        = Uws.StepOut.closeAbort 1009 ∧
    Uws.hdrOpcode [128, 128, 0, 0, 0, 0] = 0 ∧
    Uws.initR.data = [] ∧ Uws.initR.dmode = 0 := by
  refine ⟨by decide, by decide, rfl, rfl⟩

/-- Claim C4, amended: one pass of the receive loop exits with error code
OVERSIZED (1009) exactly when a freshly decoded header is a zero-length frame
with a data-range opcode (TEXT, BLOB — or continuation, which the claim as
stated omits), a control frame with declared payload length over 125, a final
frame whose declared size exceeds `MessageSize`, or an open assembly whose
pending append would push the reassembly buffer past `MessageSize`; and the
reassembly buffer length never exceeds `MessageSize` across a loop pass. -/
theorem c4_oversized (client : Bool) (msgSize : Nat) (utf8v : List Nat → Bool)
    (st : Uws.RState) (win : List Nat) :
    (Uws.innerStep client msgSize utf8v st win = Uws.StepOut.closeAbort 1009 ↔
      Uws.oversizedTrigger client msgSize st win) ∧
    (∀ opcode fin : Nat, ∀ size : Int, ∀ cap : Nat,
      opcode = 0 ∨ opcode = 1 ∨ opcode = 2 ∨ opcode = 8 ∨ opcode = 9 ∨ opcode = 10 →
      (Uws.hdrOversized opcode fin size cap ↔
        ((opcode = 0 ∨ opcode = 1 ∨ opcode = 2) ∧ size = 0) ∨
        ((opcode = 8 ∨ opcode = 9 ∨ opcode = 10) ∧ 125 < size) ∨
        (fin = 1 ∧ (cap : Int) < size))) ∧
    (st.data.length ≤ msgSize → ∀ st2 win2,
      Uws.innerStep client msgSize utf8v st win = Uws.StepOut.more st2 win2 ∨
      Uws.innerStep client msgSize utf8v st win = Uws.StepOut.stall st2 win2 →
      st2.data.length ≤ msgSize) := by
  refine ⟨Uws.innerStep_1009_iff client msgSize utf8v st win, ?_, ?_⟩
  · intro opcode fin size cap hop
    unfold Uws.hdrOversized
    omega
  · intro hdb st2 win2 h
    exact Uws.innerStep_data_bound client msgSize utf8v st win hdb st2 win2 h

/-- Witness for claim C4: a PING frame declaring 200 payload bytes trips the
header oversize check. -/
theorem c4_oversized_witness : Uws.hdrOversized 9 1 200 4096 :=
  ((c4_oversized false 4096 (fun _ => true) Uws.initR []).2.1 9 1 200 4096
      (by decide)).mpr
    (Or.inr (Or.inl ⟨by decide, by decide⟩))
